import Mathlib

/-!
# fishinganoma: leaderboard service and game simulation

A shallow embedding of `src/api/db.js`, `src/api/leaderboard.js` and the
simulation part of `src/main.js`, followed by the properties proved about it.

Conventions of the embedding:

* JavaScript numbers are modelled as rationals (`ℚ`), integer columns of the
  database as `Int`. The arithmetic of `createFishField` is rounded to binary64
  (`fl`), because the bounds stated of it depend on the rounding; the tick is
  modelled in exact arithmetic.
* The SQLite table `leaderboard` is a list of rows in insertion order.
  `CURRENT_TIMESTAMP` is an explicit argument `now`.
* Object references held in `state.hookCollected` are modelled as indices into
  `state.fish` (the array is only replaced by `createFishField`).
* `Math.random()` is an explicit stream of draws `rnd : Nat → ℚ`.
-/

set_option linter.unusedVariables false

namespace Fishinganoma

/-! ## Leaderboard service: data model (`src/api/db.js`) -/

/-- One row of the table `leaderboard` (db.js, lines 22-28). -/
structure Row where
  id : Nat
  name : String
  score : Int
  created_at : Nat
  updated_at : Nat
deriving DecidableEq, Repr

/-- The table `leaderboard`, rows in insertion order. `getDB` creates it empty
when it is absent (`CREATE TABLE IF NOT EXISTS`). -/
abbrev Table := List Row

/-- The projection `SELECT name, score`. -/
structure Entry where
  name : String
  score : Int
deriving DecidableEq, Repr

/-- Projection of a stored row on the columns `name, score`. -/
def Row.toEntry (r : Row) : Entry := ⟨r.name, r.score⟩

/-- The rowid given to an inserted row: one more than the largest rowid in the
table (`INTEGER PRIMARY KEY AUTOINCREMENT`; rows are never deleted). -/
def nextId (t : Table) : Nat := (t.map Row.id).foldr max 0 + 1

/-- `db.get('SELECT * FROM leaderboard WHERE name = ?', [name])`: the first
matching row, `none` for `undefined`. -/
def dbGet (t : Table) (name : String) : Option Row :=
  t.find? (fun r => r.name == name)

/-- `db.run('UPDATE leaderboard SET score = ?, updated_at = CURRENT_TIMESTAMP
WHERE name = ?', [score, name])`. -/
def dbUpdate (t : Table) (score : Int) (name : String) (now : Nat) : Table :=
  t.map (fun r => if r.name == name then Row.mk r.id r.name score r.created_at now else r)

/-- `db.run('INSERT INTO leaderboard (name, score) VALUES (?, ?)', [name, score])`.
The column `name` is `UNIQUE`: inserting a name that is present throws. -/
def dbInsert (t : Table) (name : String) (score : Int) (now : Nat) : Except String Table :=
  if t.any (fun r => r.name == name) then
    Except.error "SQLITE_CONSTRAINT: UNIQUE constraint failed: leaderboard.name"
  else
    Except.ok (t ++ [Row.mk (nextId t) name score now now])

/-- The order of `ORDER BY score DESC`. -/
def scoreDesc (a b : Row) : Prop := b.score ≤ a.score

instance scoreDesc_decidable : DecidableRel scoreDesc :=
  fun a b => inferInstanceAs (Decidable (b.score ≤ a.score))

instance scoreDesc_total : IsTotal Row scoreDesc := ⟨fun a b => le_total b.score a.score⟩

instance scoreDesc_trans : IsTrans Row scoreDesc := ⟨fun _ _ _ hab hbc => le_trans hbc hab⟩

/-- `db.all('SELECT name, score FROM leaderboard ORDER BY score DESC LIMIT 5')`.
The order among equal scores is not fixed by SQL; the model sorts stably. -/
def dbTop5 (t : Table) : List Entry :=
  ((t.insertionSort scoreDesc).take 5).map Row.toEntry

/-! ## Leaderboard service: request handler (`src/api/leaderboard.js`) -/

/-- The request method. -/
inductive Method where
  | GET
  | POST
  | other (m : String)
deriving DecidableEq, Repr

/-- What the destructuring `const { name, score } = ...` reads from a parsed
body that is not `null`: the properties `name` (a string) and `score` (an
integer) of the interface type; a property that is missing is `none`
(JavaScript `undefined`). -/
structure Body where
  name : Option String
  score : Option Int
deriving DecidableEq, Repr

/-- What `JSON.parse(req.body)` returns: JSON `null`, on which the
destructuring throws a `TypeError`, or another value, whose properties `name`
and `score` the destructuring reads. -/
inductive Parsed where
  | null
  | fields (b : Body)
deriving DecidableEq, Repr

/-- A request: `body = none` stands for a body on which `JSON.parse` throws. -/
structure Request where
  method : Method
  body : Option Parsed
deriving DecidableEq, Repr

/-- What is sent with `res.json(...)` or `res.end(...)`. -/
inductive Payload where
  | success
  | error (msg : String)
  | scores (l : List Entry)
  | text (s : String)
deriving DecidableEq, Repr

/-- The response: status code, payload and the `Allow` header when set. -/
structure Response where
  status : Nat
  payload : Payload
  allow : Option (List String)
deriving DecidableEq, Repr

/-- JavaScript truthiness of `name`: `undefined` and the empty string are falsy. -/
def truthyName : Option String → Bool
  | none => false
  | some s => s != ""

/-- JavaScript truthiness of `score`: `undefined` and `0` are falsy. -/
def truthyScore : Option Int → Bool
  | none => false
  | some n => n != 0

/-- The answer of the `catch` blocks: `500 {error: 'Internal server error'}`. -/
def internalError : Response := ⟨500, Payload.error "Internal server error", none⟩

/-- The body of the `try` block of the POST branch (leaderboard.js, lines 9-37),
after the body has been parsed. An exception is `Except.error`. -/
def postTry (b : Body) (t : Table) (now : Nat) : Except String (Response × Table) :=
  match b.name, b.score with
  | some name, some score =>
    if !(truthyName (some name)) || !(truthyScore (some score)) then
      Except.ok (⟨400, Payload.error "Name and score are required", none⟩, t)
    else
      match dbGet t name with
      | some existingPlayer =>
        if score > existingPlayer.score then
          Except.ok (⟨200, Payload.success, none⟩, dbUpdate t score name now)
        else
          Except.ok (⟨200, Payload.success, none⟩, t)
      | none =>
        match dbInsert t name score now with
        | Except.ok t2 => Except.ok (⟨200, Payload.success, none⟩, t2)
        | Except.error e => Except.error e
  | _, _ => Except.ok (⟨400, Payload.error "Name and score are required", none⟩, t)

/-- The request handler (leaderboard.js, lines 3-58): the response and the
table after the request. -/
def handler (req : Request) (t : Table) (now : Nat) : Response × Table :=
  match req.method with
  | Method.POST =>
    match req.body with
    | none => (internalError, t)
    | some Parsed.null => (internalError, t)
    | some (Parsed.fields b) =>
      match postTry b t now with
      | Except.ok r => r
      | Except.error _ => (internalError, t)
  | Method.GET => (⟨200, Payload.scores (dbTop5 t), none⟩, t)
  | Method.other m =>
    (⟨405, Payload.text ("Method " ++ m ++ " Not Allowed"), some ["GET", "POST"]⟩, t)

/-- The request `POST {name, score}`. -/
def postReq (name : String) (score : Int) : Request :=
  ⟨Method.POST, some (Parsed.fields ⟨some name, some score⟩)⟩

/-- The request `GET`. -/
def getReq : Request := ⟨Method.GET, none⟩

/-! ## Binary64 arithmetic

The bounds claimed of `createFishField` depend on the rounding of IEEE 754
doubles, so its arithmetic is rounded with `fl`: round to nearest, ties to
even, 53 bits of significand, subnormal numbers included. Overflow to
`Infinity` is not modelled. -/

/-- Rounding of a rational to the nearest integer, ties to the even one. -/
def roundEven (m : ℚ) : Int :=
  if m - ⌊m⌋ < 1 / 2 then ⌊m⌋
  else if 1 / 2 < m - ⌊m⌋ then ⌊m⌋ + 1
  else if ⌊m⌋ % 2 = 0 then ⌊m⌋ else ⌊m⌋ + 1

/-- The binary exponent of the binade of `q`: `e` with `2 ^ e ≤ |q| < 2 ^ (e + 1)`,
and `-1022` in the subnormal range. -/
def expo (q : ℚ) : Int := max (Int.log 2 |q|) (-1022)

/-- The spacing of the binary64 numbers in the binade of `q`. -/
def ulp (q : ℚ) : ℚ := (2 : ℚ) ^ (expo q - 52)

/-- The binary64 number nearest to `q`, ties to even: the value of a decimal
literal, and the result of an arithmetic operation whose exact result is `q`. -/
def fl (q : ℚ) : ℚ := (roundEven (q / ulp q) : ℚ) * ulp q

/-- The rational is a binary64 number. -/
def IsDouble (q : ℚ) : Prop := fl q = q

instance IsDouble_decidable (q : ℚ) : Decidable (IsDouble q) :=
  inferInstanceAs (Decidable (fl q = q))

/-! ## Game simulation: constants and helpers (`src/main.js`, lines 1-52) -/

/-- Water surface in world coordinates. -/
def WATER_TOP_Y : ℚ := 80

/-- Hook horizontal smoothness coefficient. -/
def HORIZONTAL_SMOOTHING : ℚ := 0.18

/-- Fixed depth. -/
def START_DEPTH : ℚ := 2000

/-- Base speed of a fish. -/
def FISH_SPEED_UNIT : ℚ := 0.50

/-- A fish type (tier). -/
structure FishType where
  key : String
  name : String
  color : String
  value : ℚ
  speedMultiplier : ℚ
  rarityDepth : ℚ
deriving DecidableEq, Repr

/-- The four fish types (main.js, lines 32-37). -/
def FISH_TYPES : List FishType :=
  [ ⟨"white", "White", "#ffffff", 5, 1.0, 0.00⟩,
    ⟨"blue", "Blue", "#4dabf7", 15, 1.5, 0.40⟩,
    ⟨"red", "Red", "#ff6b6b", 25, 2.0, 0.65⟩,
    ⟨"golden", "Golden", "#ffd43b", 50, 3.0, 0.85⟩ ]

/-- `clamp(value, min, max)`. -/
def clamp (value lo hi : ℚ) : ℚ := max lo (min hi value)

/-- `lerp(a, b, t)`. -/
def lerp (a b t : ℚ) : ℚ := a + (b - a) * t

/-- `randRange(min, max)` with the draw of `Math.random()` given as `r`, in
binary64: `Math.random() * (max - min) + min`. -/
def randRange (r lo hi : ℚ) : ℚ := fl (fl (r * fl (hi - lo)) + lo)

/-- `Math.round`: the nearest integer, halves rounded up. -/
def jsRound (q : ℚ) : ℚ := ((⌊q + 1 / 2⌋ : Int) : ℚ)

/-! ## Game simulation: state (`src/main.js`, lines 125-144 and module variables) -/

/-- A fish of the field. -/
structure Fish where
  x : ℚ
  y : ℚ
  vx : ℚ
  type : FishType
  caught : Bool
deriving DecidableEq, Repr

/-- The phase of a round. -/
inductive Phase where
  | idle
  | dropping
  | rising
deriving DecidableEq, Repr

/-- The object `state` together with the module variables the simulation reads
or writes, and a log of the effects it issues. -/
structure State where
  /-- Module variable `CANVAS_WIDTH`. -/
  CANVAS_WIDTH : ℚ
  /-- Module variable `CANVAS_HEIGHT`. -/
  CANVAS_HEIGHT : ℚ
  /-- Module variable `LINE_X`. -/
  LINE_X : ℚ
  /-- Module variable `cameraY`. -/
  cameraY : ℚ
  /-- Module variable `isPointerDown`. -/
  isPointerDown : Bool
  /-- Module variable `last` of the game loop. -/
  last : ℚ
  coins : ℚ
  topScore : ℚ
  playerName : String
  phase : Phase
  lineY : ℚ
  hookY : ℚ
  hookX : ℚ
  hookTargetX : ℚ
  /-- References to caught fish, as indices into `fish`, in push order. -/
  hookCollected : List Nat
  minYReached : ℚ
  fish : List Fish
  fallSpeed : ℚ
  riseSpeed : ℚ
  /-- The calls `addToLeaderboard(playerName, coins)` issued so far, oldest first. -/
  submitted : List (String × ℚ)
  /-- Whether the results modal is displayed. -/
  resultsShown : Bool

/-- The getter `state.maxDepth`. -/
def State.maxDepth (s : State) : ℚ := START_DEPTH

/-- The state when the script has been loaded, for a window of the given size. -/
def initialState (innerWidth innerHeight : ℚ) : State where
  CANVAS_WIDTH := innerWidth
  CANVAS_HEIGHT := innerHeight
  LINE_X := innerWidth / 2
  cameraY := WATER_TOP_Y - jsRound (innerHeight * 0.48)
  isPointerDown := false
  last := 0
  coins := 0
  topScore := 0
  playerName := ""
  phase := Phase.idle
  lineY := WATER_TOP_Y
  hookY := WATER_TOP_Y
  hookX := innerWidth / 2
  hookTargetX := innerWidth / 2
  hookCollected := []
  minYReached := WATER_TOP_Y
  fish := []
  fallSpeed := 3.5
  riseSpeed := 1.75
  submitted := []
  resultsShown := false

/-! ## Game simulation: round initialisation (`src/main.js`, lines 236-271) -/

/-- The depth ratio `t = (depth - WATER_TOP_Y) / state.maxDepth` of line 241,
in binary64. -/
def depthRatio (s : State) (depth : ℚ) : ℚ := fl (fl (depth - WATER_TOP_Y) / s.maxDepth)

/-- The threshold `ft.rarityDepth - 0.1` of line 243, in binary64. -/
def rarityThreshold (ft : FishType) : ℚ := fl (fl ft.rarityDepth - fl 0.1)

/-- The list `candidates` of line 243 for a depth ratio `t`. -/
def candidatesAt (t : ℚ) : List FishType :=
  FISH_TYPES.filter (fun ft => decide (t ≥ rarityThreshold ft))

/-- The index `Math.floor(Math.random() * candidates.length)` of line 244 for
the draw `r`, in binary64. -/
def candidateIndex (r : ℚ) (candidates : List FishType) : Int :=
  ⌊fl (r * (candidates.length : ℚ))⌋

/-- The fish pushed by iteration `i` of `createFishField`, in binary64; the
iteration takes the draws `rnd (4 * i)` to `rnd (4 * i + 3)` in the order of
its calls of `Math.random()`: depth, type, `x`, direction. -/
def createFish (s : State) (rnd : Nat → ℚ) (i : Nat) : Fish :=
  let depth :=
    randRange (rnd (4 * i)) (fl (WATER_TOP_Y + 40)) (fl (WATER_TOP_Y + s.maxDepth))
  let t := depthRatio s depth
  let candidates := candidatesAt t
  let k := candidateIndex (rnd (4 * i + 1)) candidates
  let fishType := (if 0 ≤ k then candidates[k.toNat]? else none).getD (FISH_TYPES.get ⟨0, by decide⟩)
  let valueScaledSpeed := fl (fl FISH_SPEED_UNIT * fl fishType.speedMultiplier)
  { x := randRange (rnd (4 * i + 2)) 40 (fl (s.CANVAS_WIDTH - 40))
    y := depth
    vx := fl ((if rnd (4 * i + 3) < 0.5 then -1 else 1) * valueScaledSpeed)
    type := fishType
    caught := false }

/-- The draws of `Math.random()` are binary64 numbers in `[0, 1)`. -/
def UnitDraws (rnd : Nat → ℚ) : Prop := ∀ n, IsDouble (rnd n) ∧ 0 ≤ rnd n ∧ rnd n < 1

/-- `createFishField()`. -/
def createFishField (s : State) (rnd : Nat → ℚ) : State :=
  { s with fish := (List.range 36).map (createFish s rnd) }

/-- `resetRun()`; `updateUI()` only renders and stores the top score. -/
def resetRun (s : State) (rnd : Nat → ℚ) : State :=
  let s1 : State :=
    { s with
      phase := Phase.idle
      lineY := WATER_TOP_Y
      hookY := WATER_TOP_Y
      hookX := s.LINE_X
      hookTargetX := s.LINE_X
      hookCollected := []
      minYReached := WATER_TOP_Y
      coins := 0 }
  let s2 := createFishField s1 rnd
  { s2 with cameraY := s2.hookY - jsRound (s2.CANVAS_HEIGHT * 0.48) }

/-! ## Game simulation: the tick (`src/main.js`, lines 417-475) -/

/-- One iteration of the fish motion loop (lines 419-429). -/
def moveFish (W : ℚ) (fish : Fish) : Fish :=
  if fish.caught then fish
  else
    let x := fish.x + fish.vx
    if x < 30 then { fish with x := 30, vx := fish.vx * -1 }
    else if x > W - 30 then { fish with x := W - 30, vx := fish.vx * -1 }
    else { fish with x := x }

/-- The collision loop (lines 449-458) from array index `i` on: the fish after
the loop, the collected list and the coins. -/
def collide (hookX hookY : ℚ) : Nat → List Fish → List Nat → ℚ → List Fish × List Nat × ℚ
  | _, [], collected, coins => ([], collected, coins)
  | i, fish :: rest, collected, coins =>
    if fish.caught then
      let r := collide hookX hookY (i + 1) rest collected coins
      (fish :: r.1, r.2.1, r.2.2)
    else
      let dx := |fish.x - hookX|
      let dy := |fish.y - hookY|
      if dx < 22 ∧ dy < 14 then
        let r := collide hookX hookY (i + 1) rest (collected ++ [i]) (coins + fish.type.value)
        ({ fish with caught := true } :: r.1, r.2.1, r.2.2)
      else
        let r := collide hookX hookY (i + 1) rest collected coins
        (fish :: r.1, r.2.1, r.2.2)

/-- The block `if (state.phase === "dropping")` (lines 431-441), entered. -/
def dropBlock (s : State) : State :=
  let hookY := s.hookY + s.fallSpeed
  let s1 : State :=
    { s with
      hookY := hookY
      minYReached := max s.minYReached hookY
      hookX := lerp s.hookX s.hookTargetX HORIZONTAL_SMOOTHING
      cameraY := hookY - jsRound (s.CANVAS_HEIGHT * 0.48) }
  if s1.hookY ≥ WATER_TOP_Y + s1.maxDepth then
    { s1 with hookY := WATER_TOP_Y + s1.maxDepth, phase := Phase.rising }
  else s1

/-- The block `if (state.phase === "rising")` (lines 443-474), entered. -/
def riseBlock (s : State) : State :=
  let hookY := s.hookY - s.riseSpeed
  let hookX := lerp s.hookX s.hookTargetX HORIZONTAL_SMOOTHING
  let r := collide hookX hookY 0 s.fish s.hookCollected s.coins
  let s1 : State :=
    { s with
      hookY := hookY
      hookX := hookX
      cameraY := hookY - jsRound (s.CANVAS_HEIGHT * 0.48)
      fish := r.1
      hookCollected := r.2.1
      coins := r.2.2 }
  if s1.hookY ≤ WATER_TOP_Y then
    { s1 with
      topScore := if s1.coins > s1.topScore then s1.coins else s1.topScore
      submitted := s1.submitted ++ [(s1.playerName, s1.coins)]
      resultsShown := true }
  else s1

/-- The fish motion loop (lines 419-429). -/
def fishMotion (s : State) : State :=
  { s with fish := s.fish.map (moveFish s.CANVAS_WIDTH) }

/-- The function `update(dt)`; the argument `dt` is not read by its body. -/
def update (s : State) (dt : ℚ) : State :=
  let s1 : State := fishMotion s
  let s2 : State := if s1.phase = Phase.dropping then dropBlock s1 else s1
  if s2.phase = Phase.rising then riseBlock s2 else s2

/-- The function `loop(ts)` (lines 661-669); `draw` and `updateUI` only render. -/
def loop (s : State) (ts : ℚ) : State :=
  let dt := min 33 (ts - s.last)
  update { s with last := ts } (dt / 16.67)

/-! ## Game simulation: input handlers (`src/main.js`, lines 350-412, 195-226) -/

/-- One canvas click listener (lines 358-362). -/
def clickListener (s : State) : State :=
  if s.phase = Phase.idle then { s with phase := Phase.dropping } else s

/-- One `pointerdown` listener (lines 364-369). -/
def pointerdownListener (s : State) (offsetX : ℚ) : State :=
  if s.phase ≠ Phase.rising ∧ s.phase ≠ Phase.dropping then s
  else { s with isPointerDown := true, hookTargetX := clamp offsetX 20 (s.CANVAS_WIDTH - 20) }

/-- One `pointermove` listener (lines 371-375). -/
def pointermoveListener (s : State) (offsetX : ℚ) : State :=
  if s.phase ≠ Phase.rising ∧ s.phase ≠ Phase.dropping then s
  else if !s.isPointerDown then s
  else { s with hookTargetX := clamp offsetX 20 (s.CANVAS_WIDTH - 20) }

/-- One `pointerup` or `pointercancel` listener. -/
def pointerupListener (s : State) : State := { s with isPointerDown := false }

/-- The function `resizeCanvas()` for a window of the given size. -/
def resizeCanvas (s : State) (innerWidth innerHeight : ℚ) : State :=
  { s with
    CANVAS_WIDTH := innerWidth
    CANVAS_HEIGHT := innerHeight
    LINE_X := innerWidth / 2
    cameraY := s.hookY - jsRound (innerHeight * 0.48) }

/-- The function `startGame()`, `name` being the trimmed content of the input. -/
def startGame (s : State) (name : String) (rnd : Nat → ℚ) : State :=
  if name.length < 2 then s
  else resetRun { s with playerName := name } rnd

/-- The click listener of the Try Again button (lines 350-353). -/
def tryAgain (s : State) (rnd : Nat → ℚ) : State :=
  resetRun { s with resultsShown := false } rnd

/-- What the event loop can deliver to the simulation. -/
inductive Event where
  | frame (ts : ℚ)
  | click
  | pointerdown (offsetX : ℚ)
  | pointermove (offsetX : ℚ)
  | pointerup
  | pointercancel
  | resize (innerWidth innerHeight : ℚ)
  | tryAgainClick (rnd : Nat → ℚ)
  | startGameClick (name : String) (rnd : Nat → ℚ)

/-- Whether the event runs `resetRun`. -/
def Event.resets : Event → Bool
  | Event.tryAgainClick _ => true
  | Event.startGameClick _ _ => true
  | _ => false

/-- Delivery of one event. Each canvas listener is registered twice in the
source (lines 358-382 and 387-412), so it runs twice. -/
def step (s : State) : Event → State
  | Event.frame ts => loop s ts
  | Event.click => clickListener (clickListener s)
  | Event.pointerdown x => pointerdownListener (pointerdownListener s x) x
  | Event.pointermove x => pointermoveListener (pointermoveListener s x) x
  | Event.pointerup => pointerupListener (pointerupListener s)
  | Event.pointercancel => pointerupListener (pointerupListener s)
  | Event.resize w h => resizeCanvas s w h
  | Event.tryAgainClick rnd => tryAgain s rnd
  | Event.startGameClick name rnd => startGame s name rnd

/-- Delivery of a sequence of events, oldest first. -/
def run (s : State) (evs : List Event) : State := evs.foldl step s

/-- The states reachable from `resetRun` by ticks of `update` and events. -/
inductive Reachable : State → Prop where
  | reset (s : State) (rnd : Nat → ℚ) : Reachable (resetRun s rnd)
  | tick (s : State) (dt : ℚ) : Reachable s → Reachable (update s dt)
  | event (s : State) (e : Event) : Reachable s → Reachable (step s e)

/-! ## Game simulation: vocabulary of the properties -/

/-- The collision test of line 453 at a hook position. -/
def near (hookX hookY : ℚ) (fish : Fish) : Prop :=
  |fish.x - hookX| < 22 ∧ |fish.y - hookY| < 14

instance near_decidable (hookX hookY : ℚ) (fish : Fish) : Decidable (near hookX hookY fish) :=
  inferInstanceAs (Decidable (_ ∧ _))

/-- A fish that the collision loop marks: not caught and near the hook. -/
def hit (hookX hookY : ℚ) (fish : Fish) : Bool :=
  !fish.caught && decide (near hookX hookY fish)

/-- The effect of one iteration of the collision loop on its fish. -/
def catchFish (hookX hookY : ℚ) (fish : Fish) : Fish :=
  if hit hookX hookY fish then { fish with caught := true } else fish

/-- The array indices, counted from `i`, of the fish that the collision loop
marks, in array order. -/
def caughtNow (hookX hookY : ℚ) : Nat → List Fish → List Nat
  | _, [] => []
  | i, fish :: rest =>
    if hit hookX hookY fish then i :: caughtNow hookX hookY (i + 1) rest
    else caughtNow hookX hookY (i + 1) rest

/-- The sum of `type.value` over the fish whose caught flag is set. -/
def caughtValue (l : List Fish) : ℚ :=
  ((l.filter (fun f => f.caught)).map (fun f => f.type.value)).sum

/-- The `type.value` of the fish a collected reference points to. -/
def valueAt (l : List Fish) (i : Nat) : ℚ :=
  match l[i]? with
  | some f => f.type.value
  | none => 0

/-- The caught flag of the fish at index `i`. -/
def caughtAt (l : List Fish) (i : Nat) : Bool :=
  match l[i]? with
  | some f => f.caught
  | none => false

/-- The scoring invariant of a round: the collected references are distinct,
they are exactly the references to the caught fish, and the coins are both the
sum of the values of the caught fish and the sum over the collected list. -/
def ScoreInv (s : State) : Prop :=
  s.hookCollected.Nodup ∧
  (∀ i, i ∈ s.hookCollected ↔ caughtAt s.fish i = true) ∧
  s.coins = caughtValue s.fish ∧
  s.coins = (s.hookCollected.map (valueAt s.fish)).sum

/-- The tick enters the rising block: the phase is rising when the second
test of `update` is made. -/
def risesInTick (s : State) : Prop :=
  s.phase = Phase.rising ∨
    (s.phase = Phase.dropping ∧ s.hookY + s.fallSpeed ≥ WATER_TOP_Y + s.maxDepth)

instance risesInTick_decidable (s : State) : Decidable (risesInTick s) :=
  inferInstanceAs (Decidable (_ ∨ _))

/-- A white fish at depth `WATER_TOP_Y + 1000`, `x = 500` (the example of the
specification). -/
def sampleFish : Fish :=
  { x := 500, y := 1080, vx := 0.5, type := ⟨"white", "White", "#ffffff", 5, 1.0, 0.00⟩,
    caught := false }

/-- A rising state whose hook is about to pass the sample fish. -/
def sampleState : State :=
  { initialState 1000 600 with
    phase := Phase.rising
    hookY := 1085
    hookX := 500
    hookTargetX := 500
    fish := [sampleFish] }

/-- A fish near the left bound, swimming left. -/
def narrowFish : Fish :=
  { x := 25, y := 500, vx := -1, type := ⟨"white", "White", "#ffffff", 5, 1.0, 0.00⟩,
    caught := false }

/-- An idle state in a window 50 wide, where the right bound `CANVAS_WIDTH - 30`
lies left of the left bound 30. -/
def narrowState : State :=
  { initialState 50 600 with fish := [narrowFish] }

/-- A dropping state at the water surface, as left by a click after a reset. -/
def droppingState : State :=
  { initialState 1000 600 with phase := Phase.dropping }

/-- A dropping state one tick above the bottom, the target 100 right of the hook. -/
def bottomState : State :=
  { initialState 1000 600 with
    phase := Phase.dropping
    hookY := 2079
    hookX := 0
    hookTargetX := 100 }

/-! ## Game simulation: vocabulary of the round initialisation and round end -/

/-- Whether the event is an animation frame, that is, a tick of `update`. -/
def Event.isFrame : Event → Bool
  | Event.frame _ => true
  | _ => false

/-- A rising state whose hook is one tick below the water surface, with 30
coins and the stored top score 10. -/
def surfacingState : State :=
  { initialState 1000 600 with
    phase := Phase.rising
    hookY := 81
    coins := 30
    topScore := 10
    playerName := "Ada" }

/-! ## Leaderboard service: lemmas -/

theorem dbGet_some {t : Table} {name : String} {r : Row} (h : dbGet t name = some r) :
    r ∈ t ∧ r.name = name := by
  unfold dbGet at h
  refine ⟨List.mem_of_find?_eq_some h, ?_⟩
  simpa using List.find?_some h

theorem dbGet_none {t : Table} {name : String} (h : dbGet t name = none) :
    ∀ r ∈ t, r.name ≠ name := by
  unfold dbGet at h
  intro r hr
  have := List.find?_eq_none.1 h r hr
  simpa using this

theorem dbGet_isSome_of_mem {t : Table} {name : String} {r : Row} (hr : r ∈ t)
    (hn : r.name = name) : ∃ e, dbGet t name = some e := by
  cases hg : dbGet t name with
  | none => exact absurd hn (dbGet_none hg r hr)
  | some e => exact ⟨e, rfl⟩

theorem dbUpdate_names (t : Table) (score : Int) (name : String) (now : Nat) :
    (dbUpdate t score name now).map Row.name = t.map Row.name := by
  unfold dbUpdate
  induction t with
  | nil => rfl
  | cons r t ih =>
    simp only [List.map_cons, List.map_map] at ih ⊢
    rw [ih]
    by_cases h : r.name = name <;> simp [h]

theorem dbUpdate_length (t : Table) (score : Int) (name : String) (now : Nat) :
    (dbUpdate t score name now).length = t.length := by
  simp [dbUpdate]

theorem dbUpdate_others (t : Table) (score : Int) (name : String) (now : Nat) :
    (dbUpdate t score name now).filter (fun r => r.name != name)
      = t.filter (fun r => r.name != name) := by
  unfold dbUpdate
  induction t with
  | nil => rfl
  | cons r t ih =>
    by_cases h : r.name = name
    · simp [List.filter_cons, h] at ih ⊢
      exact ih
    · simp [List.filter_cons, h] at ih ⊢
      exact ih

theorem dbUpdate_mem {t : Table} {score : Int} {name : String} {now : Nat} {r2 : Row}
    (h : r2 ∈ dbUpdate t score name now) (hn : r2.name = name) :
    r2.score = score ∧ ∃ r ∈ t, r.name = name ∧ r2.id = r.id := by
  unfold dbUpdate at h
  obtain ⟨r, hr, rfl⟩ := List.mem_map.1 h
  by_cases hrn : r.name = name
  · simp [hrn]
    exact ⟨r, hr, hrn, rfl⟩
  · simp [hrn] at hn

theorem dbUpdate_mem_of_mem {t : Table} {name : String} {r : Row} (score : Int) (now : Nat)
    (hr : r ∈ t) (hn : r.name = name) :
    Row.mk r.id r.name score r.created_at now ∈ dbUpdate t score name now := by
  unfold dbUpdate
  refine List.mem_map.2 ⟨r, hr, ?_⟩
  simp [hn]

theorem dbInsert_of_absent {t : Table} {name : String} (score : Int) (now : Nat)
    (h : ∀ r ∈ t, r.name ≠ name) :
    dbInsert t name score now = Except.ok (t ++ [Row.mk (nextId t) name score now now]) := by
  unfold dbInsert
  have : t.any (fun r => r.name == name) = false := by
    rw [List.any_eq_false]
    intro r hr
    simpa using h r hr
  simp [this]

/-- Rows with unique names: a name determines the row. -/
theorem row_unique_of_nodup {t : Table} (h : (t.map Row.name).Nodup) {a b : Row}
    (ha : a ∈ t) (hb : b ∈ t) (hab : a.name = b.name) : a = b :=
  List.inj_on_of_nodup_map h ha hb hab

/-- What an accepted POST does to the table, by cases on the lookup. -/
theorem handler_post_eq (t : Table) (name : String) (score : Int) (now : Nat)
    (hname : name ≠ "") (hscore : score ≠ 0) :
    handler (postReq name score) t now =
      (⟨200, Payload.success, none⟩,
        match dbGet t name with
        | some e => if score > e.score then dbUpdate t score name now else t
        | none => t ++ [Row.mk (nextId t) name score now now]) := by
  simp only [handler, postReq, postTry, truthyName, truthyScore]
  have h1 : (name != "") = true := by simpa using hname
  have h2 : (score != 0) = true := by simpa using hscore
  simp only [h1, h2, Bool.not_true, Bool.or_self, Bool.false_eq_true, if_false]
  cases hg : dbGet t name with
  | some e =>
    by_cases hs : score > e.score <;> simp [hs]
  | none =>
    simp [dbInsert_of_absent score now (dbGet_none hg)]

/-! ## Leaderboard service: the claims -/

/-- C1: on a table with unique names, a POST with a non-empty name and a
positive score is accepted (200, success) and yields a table with unique
names; a row that existed for the name keeps its place and identity and has
score `max old score` afterwards, and no row is added; when no row existed,
exactly one row `(name, score)` is appended; the rows with another name are
unchanged. -/
theorem submit_upsert_invariant (t : Table) (name : String) (score : Int) (now : Nat)
    (huniq : (t.map Row.name).Nodup) (hname : name ≠ "") (hscore : 0 < score) :
    (handler (postReq name score) t now).1 = ⟨200, Payload.success, none⟩ ∧
    (((handler (postReq name score) t now).2).map Row.name).Nodup ∧
    (∀ old ∈ t, old.name = name →
      ((handler (postReq name score) t now).2).length = t.length ∧
      (∃ r ∈ (handler (postReq name score) t now).2, r.name = name) ∧
      (∀ r ∈ (handler (postReq name score) t now).2, r.name = name →
        r.id = old.id ∧ r.score = max old.score score ∧ old.score ≤ r.score)) ∧
    ((∀ r ∈ t, r.name ≠ name) →
      ∃ r, r.name = name ∧ r.score = score ∧
        (handler (postReq name score) t now).2 = t ++ [r]) ∧
    ((handler (postReq name score) t now).2).filter (fun r => r.name != name)
      = t.filter (fun r => r.name != name) := by
  rw [handler_post_eq t name score now hname (ne_of_gt hscore)]
  refine ⟨rfl, ?_, ?_, ?_, ?_⟩
  · -- unique names
    cases hg : dbGet t name with
    | some e =>
      by_cases hs : score > e.score
      · simp only [hs, if_true]
        rw [dbUpdate_names]; exact huniq
      · simp only [hs, if_false]; exact huniq
    | none =>
      simp only [List.map_append, List.map_cons, List.map_nil]
      refine List.Nodup.append huniq (List.nodup_singleton _) ?_
      intro a ha hb
      obtain ⟨r, hr, rfl⟩ := List.mem_map.1 ha
      have : r.name = name := by simpa using hb
      exact dbGet_none hg r hr this
  · -- an existing row
    intro old hold holdn
    obtain ⟨e, hg⟩ := dbGet_isSome_of_mem hold holdn
    have he := dbGet_some hg
    have heq : e = old := row_unique_of_nodup huniq he.1 hold (he.2.trans holdn.symm)
    subst heq
    rw [hg]
    by_cases hs : score > e.score
    · simp only [hs, if_true]
      refine ⟨dbUpdate_length _ _ _ _, ⟨_, dbUpdate_mem_of_mem score now hold holdn, holdn⟩, ?_⟩
      intro r hr hrn
      obtain ⟨h1, r0, hr0, hr0n, hid⟩ := dbUpdate_mem hr hrn
      have : r0 = e := row_unique_of_nodup huniq hr0 hold (hr0n.trans holdn.symm)
      subst this
      refine ⟨hid, ?_, ?_⟩
      · rw [h1, max_eq_right (le_of_lt hs)]
      · rw [h1]; exact le_of_lt hs
    · simp only [hs, if_false]
      refine ⟨trivial, ⟨e, hold, holdn⟩, ?_⟩
      intro r hr hrn
      have : r = e := row_unique_of_nodup huniq hr hold (hrn.trans holdn.symm)
      subst this
      refine ⟨rfl, ?_, le_refl _⟩
      rw [max_eq_left (not_lt.1 hs)]
  · -- no row for the name
    intro habs
    have hg : dbGet t name = none := by
      cases hg : dbGet t name with
      | none => rfl
      | some e => exact absurd (dbGet_some hg).2 (habs e (dbGet_some hg).1)
    rw [hg]
    exact ⟨Row.mk (nextId t) name score now now, rfl, rfl, rfl⟩
  · -- the other rows
    cases hg : dbGet t name with
    | some e =>
      by_cases hs : score > e.score
      · simp only [hs, if_true]; exact dbUpdate_others _ _ _ _
      · simp only [hs, if_false]
    | none =>
      simp [List.filter_append]

/-- Witness of C1: the empty table and the submission (Ada, 120). -/
theorem submit_upsert_invariant_witness :
    (([] : Table).map Row.name).Nodup ∧ "Ada" ≠ "" ∧ (0 : Int) < 120 ∧
    (handler (postReq "Ada" 120) [] 7).1 = ⟨200, Payload.success, none⟩ ∧
    (((handler (postReq "Ada" 120) [] 7).2).map Row.name).Nodup :=
  have h := submit_upsert_invariant [] "Ada" 120 7 List.nodup_nil (by decide) (by decide)
  ⟨List.nodup_nil, by decide, by decide, h.1, h.2.1⟩

theorem dbUpdate_append (t u : Table) (score : Int) (name : String) (now : Nat) :
    dbUpdate (t ++ u) score name now = dbUpdate t score name now ++ dbUpdate u score name now := by
  simp [dbUpdate]

theorem dbUpdate_of_absent {t : Table} {name : String} (score : Int) (now : Nat)
    (h : ∀ r ∈ t, r.name ≠ name) : dbUpdate t score name now = t := by
  unfold dbUpdate
  induction t with
  | nil => rfl
  | cons r t ih =>
    have h1 : r.name ≠ name := h r (List.mem_cons_self _ _)
    have h2 := ih (fun x hx => h x (List.mem_cons_of_mem _ hx))
    simp only [List.map_cons, h2]
    simp [h1]

theorem filter_name_of_absent {t : Table} {name : String} (h : ∀ r ∈ t, r.name ≠ name) :
    t.filter (fun r => r.name == name) = [] := by
  induction t with
  | nil => rfl
  | cons r t ih =>
    have h1 : r.name ≠ name := h r (List.mem_cons_self _ _)
    have h2 := ih (fun x hx => h x (List.mem_cons_of_mem _ hx))
    simp [List.filter_cons, h1, h2]

theorem dbGet_append_of_absent {t : Table} {name : String} (r : Row)
    (h : ∀ x ∈ t, x.name ≠ name) (hr : r.name = name) : dbGet (t ++ [r]) name = some r := by
  unfold dbGet
  induction t with
  | nil => simp [hr]
  | cons x t ih =>
    have h1 : x.name ≠ name := h x (List.mem_cons_self _ _)
    have h2 := ih (fun y hy => h y (List.mem_cons_of_mem _ hy))
    have h3 : (x.name == name) = false := by simpa using h1
    simp only [List.cons_append, List.find?_cons, h3, h2]

/-- C2: on a table with unique names that has no row for `name`, two accepted
submissions `(name, s1)` and `(name, s2)` leave exactly one row for `name`, and
its score is `max s1 s2`. On the empty table, POST (Ada, 120) then POST
(Ada, 80) leaves the single row (Ada, 120) and GET answers `[(Ada, 120)]`. -/
theorem submit_twice_max (t : Table) (name : String) (s1 s2 : Int) (now1 now2 : Nat)
    (huniq : (t.map Row.name).Nodup) (habs : ∀ r ∈ t, r.name ≠ name)
    (hname : name ≠ "") (h1 : 0 < s1) (h2 : 0 < s2) :
    (∃ r, ((handler (postReq name s2) (handler (postReq name s1) t now1).2 now2).2).filter
            (fun x => x.name == name) = [r] ∧ r.name = name ∧ r.score = max s1 s2) ∧
    (handler (postReq "Ada" 120) [] now1).2 = [Row.mk 1 "Ada" 120 now1 now1] ∧
    (handler (postReq "Ada" 80) [Row.mk 1 "Ada" 120 now1 now1] now2).2
      = [Row.mk 1 "Ada" 120 now1 now1] ∧
    (handler getReq [Row.mk 1 "Ada" 120 now1 now1] now2).1
      = ⟨200, Payload.scores [⟨"Ada", 120⟩], none⟩ := by
  refine ⟨?_, ?_, ?_, ?_⟩
  · have hg : dbGet t name = none := by
      cases hg : dbGet t name with
      | none => rfl
      | some e => exact absurd (dbGet_some hg).2 (habs e (dbGet_some hg).1)
    rw [handler_post_eq t name s1 now1 hname (ne_of_gt h1), hg]
    rw [handler_post_eq _ name s2 now2 hname (ne_of_gt h2)]
    simp only [dbGet_append_of_absent (Row.mk (nextId t) name s1 now1 now1) habs rfl]
    by_cases hs : s2 > s1
    · simp only [hs, if_true]
      refine ⟨Row.mk (nextId t) name s2 now1 now2, ?_, rfl, (max_eq_right (le_of_lt hs)).symm⟩
      rw [dbUpdate_append, dbUpdate_of_absent s2 now2 habs, List.filter_append,
        filter_name_of_absent habs]
      simp [dbUpdate]
    · simp only [hs, if_false]
      refine ⟨Row.mk (nextId t) name s1 now1 now1, ?_, rfl, (max_eq_left (not_lt.1 hs)).symm⟩
      rw [List.filter_append, filter_name_of_absent habs]
      simp
  · rw [handler_post_eq _ _ _ _ (by decide) (by decide)]
    rfl
  · rw [handler_post_eq _ _ _ _ (by decide) (by decide)]
    rfl
  · rfl

/-- Witness of C2: the empty table, Ada, 120 then 80. -/
theorem submit_twice_max_witness :
    (([] : Table).map Row.name).Nodup ∧ "Ada" ≠ "" ∧
    (∃ r, ((handler (postReq "Ada" 80) (handler (postReq "Ada" 120) [] 1).2 2).2).filter
            (fun x => x.name == "Ada") = [r] ∧ r.name = "Ada" ∧ r.score = max 120 80) :=
  ⟨List.nodup_nil, by decide,
    (submit_twice_max [] "Ada" 120 80 1 2 List.nodup_nil (fun _ h => absurd h (List.not_mem_nil _))
      (by decide) (by decide) (by decide)).1⟩

/-- C3: GET answers 200 with `min 5 n` entries, leaves the table alone, each
entry is the `(name, score)` projection of a stored row, the entries are in
descending score order, the stored rows split into the returned ones and the
rest with every returned score at least every score of the rest, and with
fewer than 5 rows all rows are returned. -/
theorem top_five_spec (t : Table) (now : Nat) :
    handler getReq t now = (⟨200, Payload.scores (dbTop5 t), none⟩, t) ∧
    (dbTop5 t).length = min 5 t.length ∧
    (∀ e ∈ dbTop5 t, ∃ r ∈ t, e = r.toEntry) ∧
    (dbTop5 t).Pairwise (fun a b => b.score ≤ a.score) ∧
    (∃ ret rest : List Row, (ret ++ rest).Perm t ∧ dbTop5 t = ret.map Row.toEntry ∧
      ∀ a ∈ ret, ∀ b ∈ rest, b.score ≤ a.score) ∧
    (t.length < 5 → (dbTop5 t).Perm (t.map Row.toEntry)) := by
  have hperm : (t.insertionSort scoreDesc).Perm t := List.perm_insertionSort _ t
  have hsorted : (t.insertionSort scoreDesc).Pairwise scoreDesc := List.sorted_insertionSort _ t
  refine ⟨rfl, ?_, ?_, ?_, ?_, ?_⟩
  · rw [dbTop5, List.length_map, List.length_take, List.length_insertionSort]
  · intro e he
    rw [dbTop5] at he
    obtain ⟨r, hr, rfl⟩ := List.mem_map.1 he
    exact ⟨r, hperm.subset (List.mem_of_mem_take hr), rfl⟩
  · rw [dbTop5, List.pairwise_map]
    exact (hsorted.sublist (List.take_sublist 5 _))
  · refine ⟨(t.insertionSort scoreDesc).take 5, (t.insertionSort scoreDesc).drop 5, ?_, rfl, ?_⟩
    · rw [List.take_append_drop]; exact hperm
    · have h := hsorted
      rw [← List.take_append_drop 5 (t.insertionSort scoreDesc), List.pairwise_append] at h
      intro a ha b hb
      exact h.2.2 a ha b hb
  · intro hlt
    rw [dbTop5, List.take_of_length_le (by rw [List.length_insertionSort]; omega)]
    exact hperm.map _

/-- C4, as amended: a POST whose body parses to a value other than `null` is
answered 400 exactly when name or score is missing or falsy, and then the
table is unchanged; in every other case the answer is `200 {success: true}`,
whichever of insert, update or no write the table went through. -/
theorem post_validation (b : Body) (t : Table) (now : Nat) :
    (((handler ⟨Method.POST, some (Parsed.fields b)⟩ t now).1.status = 400) ↔
      (b.name = none ∨ b.name = some "" ∨ b.score = none ∨ b.score = some 0)) ∧
    ((handler ⟨Method.POST, some (Parsed.fields b)⟩ t now).1.status = 400 →
      (handler ⟨Method.POST, some (Parsed.fields b)⟩ t now).1
          = ⟨400, Payload.error "Name and score are required", none⟩ ∧
      (handler ⟨Method.POST, some (Parsed.fields b)⟩ t now).2 = t) ∧
    ((handler ⟨Method.POST, some (Parsed.fields b)⟩ t now).1.status ≠ 400 →
      (handler ⟨Method.POST, some (Parsed.fields b)⟩ t now).1 = ⟨200, Payload.success, none⟩ ∧
      ∃ name score, b = ⟨some name, some score⟩ ∧
        (handler ⟨Method.POST, some (Parsed.fields b)⟩ t now).2 =
          match dbGet t name with
          | some e => if score > e.score then dbUpdate t score name now else t
          | none => t ++ [Row.mk (nextId t) name score now now]) := by
  obtain ⟨n, s⟩ := b
  cases n with
  | none => simp [handler, postTry]
  | some name =>
    cases s with
    | none => simp [handler, postTry]
    | some score =>
      by_cases hn : name = ""
      · subst hn
        simp [handler, postTry, truthyName]
      · by_cases hs : score = 0
        · subst hs
          simp [handler, postTry, truthyScore]
        · have h := handler_post_eq t name score now hn hs
          unfold postReq at h
          rw [h]
          refine ⟨?_, ?_, ?_⟩
          · simp [hn, hs]
          · intro h4
            have h5 : (200 : Nat) = 400 := h4
            exact absurd h5 (by decide)
          · intro _; exact ⟨rfl, name, score, rfl, rfl⟩

/-- Counterexample to C4 as stated: the body `null` parses, name and score
are missing, and the destructuring throws, so the handler answers 500, which
is neither the 400 nor the 200 of the claim; nothing is written. -/
theorem post_null_body_counterexample :
    handler ⟨Method.POST, some Parsed.null⟩ [] 0
      = (⟨500, Payload.error "Internal server error", none⟩, []) ∧
    (handler ⟨Method.POST, some Parsed.null⟩ [] 0).1.status ≠ 400 ∧
    (handler ⟨Method.POST, some Parsed.null⟩ [] 0).1.status ≠ 200 := by
  refine ⟨rfl, ?_, ?_⟩
  · show (500 : Nat) ≠ 400
    decide
  · show (500 : Nat) ≠ 200
    decide

/-! ## Game simulation: lemmas on the loops -/

theorem moveFish_caught (W : ℚ) (f : Fish) : (moveFish W f).caught = f.caught := by
  unfold moveFish
  by_cases h : f.caught = true
  · simp [h]
  · simp only [h, Bool.false_eq_true, if_false]
    split_ifs <;> rfl

theorem moveFish_type (W : ℚ) (f : Fish) : (moveFish W f).type = f.type := by
  unfold moveFish
  dsimp only
  split_ifs <;> rfl

theorem moveFish_y (W : ℚ) (f : Fish) : (moveFish W f).y = f.y := by
  unfold moveFish
  dsimp only
  split_ifs <;> rfl

theorem moveFish_of_caught (W : ℚ) (f : Fish) (h : f.caught = true) : moveFish W f = f := by
  simp [moveFish, h]

theorem catchFish_of_caught (hx hy : ℚ) (f : Fish) (h : f.caught = true) :
    catchFish hx hy f = f := by
  simp [catchFish, hit, h]

theorem catchFish_type (hx hy : ℚ) (f : Fish) : (catchFish hx hy f).type = f.type := by
  unfold catchFish
  split_ifs <;> rfl

theorem catchFish_caught (hx hy : ℚ) (f : Fish) :
    (catchFish hx hy f).caught = (f.caught || hit hx hy f) := by
  unfold catchFish
  by_cases h : hit hx hy f = true
  · simp [h]
  · simp [h]

/-- The collision loop in closed form. -/
theorem collide_eq (hx hy : ℚ) (l : List Fish) (i : Nat) (col : List Nat) (c : ℚ) :
    collide hx hy i l col c =
      (l.map (catchFish hx hy), col ++ caughtNow hx hy i l,
        c + ((l.filter (hit hx hy)).map (fun f => f.type.value)).sum) := by
  induction l generalizing i col c with
  | nil => simp [collide, caughtNow]
  | cons f rest ih =>
    unfold collide
    by_cases hc : f.caught = true
    · have hh : hit hx hy f = false := by simp [hit, hc]
      simp only [hc, if_true, ih, caughtNow, hh, Bool.false_eq_true, if_false,
        List.map_cons, List.filter_cons, catchFish]
    · have hc2 : f.caught = false := by simpa using hc
      by_cases hn : near hx hy f
      · have hh : hit hx hy f = true := by simp [hit, hc2, hn]
        have hn2 : |f.x - hx| < 22 ∧ |f.y - hy| < 14 := hn
        simp only [hc2, Bool.false_eq_true, if_false, hn2, and_self, if_true, ih, caughtNow, hh,
          List.map_cons, List.filter_cons, catchFish, List.sum_cons, List.append_assoc,
          List.singleton_append, add_assoc]
      · have hh : hit hx hy f = false := by simp [hit, hn]
        have hn2 : ¬ (|f.x - hx| < 22 ∧ |f.y - hy| < 14) := hn
        simp only [hc2, Bool.false_eq_true, if_false, hn2, ih, caughtNow, hh,
          List.map_cons, List.filter_cons, catchFish]

/-! ## Game simulation: lemmas on the tick -/

theorem riseBlock_phase (s : State) : (riseBlock s).phase = s.phase := by
  unfold riseBlock
  dsimp only
  split_ifs <;> rfl

theorem riseBlock_hookX (s : State) :
    (riseBlock s).hookX = lerp s.hookX s.hookTargetX HORIZONTAL_SMOOTHING := by
  unfold riseBlock
  dsimp only
  split_ifs <;> rfl

theorem riseBlock_hookY (s : State) : (riseBlock s).hookY = s.hookY - s.riseSpeed := by
  unfold riseBlock
  dsimp only
  split_ifs <;> rfl

theorem riseBlock_fish (s : State) :
    (riseBlock s).fish = s.fish.map (catchFish (riseBlock s).hookX (riseBlock s).hookY) := by
  rw [riseBlock_hookX, riseBlock_hookY]
  unfold riseBlock
  dsimp only
  split_ifs <;> simp [collide_eq]

theorem riseBlock_hookCollected (s : State) :
    (riseBlock s).hookCollected =
      s.hookCollected ++ caughtNow (riseBlock s).hookX (riseBlock s).hookY 0 s.fish := by
  rw [riseBlock_hookX, riseBlock_hookY]
  unfold riseBlock
  dsimp only
  split_ifs <;> simp [collide_eq]

theorem riseBlock_coins (s : State) :
    (riseBlock s).coins = s.coins +
      ((s.fish.filter (hit (riseBlock s).hookX (riseBlock s).hookY)).map
        (fun f => f.type.value)).sum := by
  rw [riseBlock_hookX, riseBlock_hookY]
  unfold riseBlock
  dsimp only
  split_ifs <;> simp [collide_eq]

theorem dropBlock_fish (s : State) : (dropBlock s).fish = s.fish := by
  unfold dropBlock
  dsimp only
  split_ifs <;> rfl

theorem dropBlock_hookCollected (s : State) : (dropBlock s).hookCollected = s.hookCollected := by
  unfold dropBlock
  dsimp only
  split_ifs <;> rfl

theorem dropBlock_coins (s : State) : (dropBlock s).coins = s.coins := by
  unfold dropBlock
  dsimp only
  split_ifs <;> rfl

theorem dropBlock_hookX (s : State) :
    (dropBlock s).hookX = lerp s.hookX s.hookTargetX HORIZONTAL_SMOOTHING := by
  unfold dropBlock
  dsimp only
  split_ifs <;> rfl

theorem dropBlock_hookTargetX (s : State) : (dropBlock s).hookTargetX = s.hookTargetX := by
  unfold dropBlock
  dsimp only
  split_ifs <;> rfl

theorem dropBlock_phase (s : State) :
    (dropBlock s).phase =
      if s.hookY + s.fallSpeed ≥ WATER_TOP_Y + s.maxDepth then Phase.rising else s.phase := by
  unfold dropBlock
  simp only [State.maxDepth]
  split_ifs <;> rfl

theorem maxDepth_eq (s : State) : s.maxDepth = START_DEPTH := rfl

/-- The tick, by cases on the phase at its start. -/
theorem update_cases (s : State) (dt : ℚ) :
    (s.phase = Phase.idle ∧ ¬ risesInTick s ∧ update s dt = fishMotion s) ∨
    (s.phase = Phase.dropping ∧ ¬ risesInTick s ∧
      ¬ (s.hookY + s.fallSpeed ≥ WATER_TOP_Y + s.maxDepth) ∧
      update s dt = dropBlock (fishMotion s)) ∨
    (s.phase = Phase.dropping ∧ risesInTick s ∧
      s.hookY + s.fallSpeed ≥ WATER_TOP_Y + s.maxDepth ∧
      update s dt = riseBlock (dropBlock (fishMotion s))) ∨
    (s.phase = Phase.rising ∧ risesInTick s ∧ update s dt = riseBlock (fishMotion s)) := by
  have hm : (fishMotion s).phase = s.phase := rfl
  cases hp : s.phase with
  | idle =>
    left
    refine ⟨rfl, by simp [risesInTick, hp], ?_⟩
    unfold update
    have h1 : ¬ (Phase.idle = Phase.dropping) := by decide
    have h2 : ¬ (Phase.idle = Phase.rising) := by decide
    simp only [hm, hp, h1, h2, if_false]
  | dropping =>
    have hd : (dropBlock (fishMotion s)).phase =
        if s.hookY + s.fallSpeed ≥ WATER_TOP_Y + s.maxDepth then Phase.rising else s.phase :=
      dropBlock_phase (fishMotion s)
    by_cases hb : s.hookY + s.fallSpeed ≥ WATER_TOP_Y + s.maxDepth
    · right; right; left
      refine ⟨rfl, Or.inr ⟨hp, hb⟩, hb, ?_⟩
      rw [if_pos hb] at hd
      unfold update
      simp only [hm, hp, if_true, hd]
    · right; left
      refine ⟨rfl, by simp [risesInTick, hp, hb], hb, ?_⟩
      rw [if_neg hb, hp] at hd
      unfold update
      simp only [hm, hp, if_true, hd]
      rfl
  | rising =>
    right; right; right
    refine ⟨rfl, Or.inl hp, ?_⟩
    unfold update
    have h1 : ¬ (Phase.rising = Phase.dropping) := by decide
    simp only [hm, hp, h1, if_false, if_true]

theorem update_phase (s : State) (dt : ℚ) :
    (update s dt).phase = if risesInTick s then Phase.rising else s.phase := by
  rcases update_cases s dt with ⟨hp, hr, h⟩ | ⟨hp, hr, _, h⟩ | ⟨hp, hr, hb, h⟩ | ⟨hp, hr, h⟩
  · rw [h, if_neg hr]; rfl
  · rw [h, if_neg hr, dropBlock_phase]
    have hb : ¬ ((fishMotion s).hookY + (fishMotion s).fallSpeed
        ≥ WATER_TOP_Y + (fishMotion s).maxDepth) := by assumption
    rw [if_neg hb]; rfl
  · rw [h, if_pos hr, riseBlock_phase, dropBlock_phase]
    have hb2 : (fishMotion s).hookY + (fishMotion s).fallSpeed
        ≥ WATER_TOP_Y + (fishMotion s).maxDepth := hb
    rw [if_pos hb2]
  · rw [h, if_pos hr, riseBlock_phase]; exact hp

theorem update_phase_rising_iff (s : State) (dt : ℚ) :
    (update s dt).phase = Phase.rising ↔ risesInTick s := by
  rw [update_phase]
  by_cases hr : risesInTick s
  · simp [hr]
  · simp only [hr, if_false, iff_false]
    intro h
    exact hr (Or.inl h)

theorem update_fish (s : State) (dt : ℚ) :
    (update s dt).fish =
      if risesInTick s then
        (s.fish.map (moveFish s.CANVAS_WIDTH)).map
          (catchFish (update s dt).hookX (update s dt).hookY)
      else s.fish.map (moveFish s.CANVAS_WIDTH) := by
  rcases update_cases s dt with ⟨hp, hr, h⟩ | ⟨hp, hr, _, h⟩ | ⟨hp, hr, hb, h⟩ | ⟨hp, hr, h⟩
  · rw [h, if_neg hr]; rfl
  · rw [h, if_neg hr, dropBlock_fish]; rfl
  · rw [h, if_pos hr, riseBlock_fish, dropBlock_fish]; rfl
  · rw [h, if_pos hr, riseBlock_fish]; rfl

theorem update_hookCollected (s : State) (dt : ℚ) :
    (update s dt).hookCollected =
      s.hookCollected ++
        (if risesInTick s then
          caughtNow (update s dt).hookX (update s dt).hookY 0
            (s.fish.map (moveFish s.CANVAS_WIDTH))
        else []) := by
  rcases update_cases s dt with ⟨hp, hr, h⟩ | ⟨hp, hr, _, h⟩ | ⟨hp, hr, hb, h⟩ | ⟨hp, hr, h⟩
  · rw [h, if_neg hr, List.append_nil]; rfl
  · rw [h, if_neg hr, dropBlock_hookCollected, List.append_nil]; rfl
  · rw [h, if_pos hr, riseBlock_hookCollected, dropBlock_hookCollected, dropBlock_fish]; rfl
  · rw [h, if_pos hr, riseBlock_hookCollected]; rfl

theorem update_coins (s : State) (dt : ℚ) :
    (update s dt).coins =
      s.coins +
        (if risesInTick s then
          (((s.fish.map (moveFish s.CANVAS_WIDTH)).filter
            (hit (update s dt).hookX (update s dt).hookY)).map (fun f => f.type.value)).sum
        else 0) := by
  rcases update_cases s dt with ⟨hp, hr, h⟩ | ⟨hp, hr, _, h⟩ | ⟨hp, hr, hb, h⟩ | ⟨hp, hr, h⟩
  · rw [h, if_neg hr, add_zero]; rfl
  · rw [h, if_neg hr, dropBlock_coins, add_zero]; rfl
  · rw [h, if_pos hr, riseBlock_coins, dropBlock_coins, dropBlock_fish]; rfl
  · rw [h, if_pos hr, riseBlock_coins]; rfl

/-! ## Game simulation: lemmas on the collected list -/

theorem catchFish_x (hx hy : ℚ) (f : Fish) : (catchFish hx hy f).x = f.x := by
  unfold catchFish
  split_ifs <;> rfl

theorem catchFish_y (hx hy : ℚ) (f : Fish) : (catchFish hx hy f).y = f.y := by
  unfold catchFish
  split_ifs <;> rfl

theorem hit_of_caught (hx hy : ℚ) (f : Fish) (h : f.caught = true) : hit hx hy f = false := by
  simp [hit, h]

theorem hit_iff (hx hy : ℚ) (f : Fish) :
    hit hx hy f = true ↔ f.caught = false ∧ near hx hy f := by
  simp [hit]

theorem mem_caughtNow (hx hy : ℚ) (l : List Fish) (k j : Nat) :
    j ∈ caughtNow hx hy k l ↔ k ≤ j ∧ ∃ f, l[j - k]? = some f ∧ hit hx hy f = true := by
  induction l generalizing k with
  | nil => simp [caughtNow]
  | cons a rest ih =>
    have key : (k + 1 ≤ j ∧ ∃ f, rest[j - (k + 1)]? = some f ∧ hit hx hy f = true) ↔
        (k < j ∧ ∃ f, (a :: rest)[j - k]? = some f ∧ hit hx hy f = true) := by
      constructor
      · rintro ⟨h1, f, h2, h3⟩
        refine ⟨h1, f, ?_, h3⟩
        have : j - k = (j - (k + 1)) + 1 := by omega
        rw [this, List.getElem?_cons_succ]; exact h2
      · rintro ⟨h1, f, h2, h3⟩
        refine ⟨h1, f, ?_, h3⟩
        have : j - k = (j - (k + 1)) + 1 := by omega
        rw [this, List.getElem?_cons_succ] at h2; exact h2
    unfold caughtNow
    by_cases hh : hit hx hy a = true
    · simp only [hh, if_true, List.mem_cons, ih, key]
      constructor
      · rintro (rfl | ⟨h1, h2⟩)
        · exact ⟨le_refl _, a, by simp, hh⟩
        · exact ⟨le_of_lt h1, h2⟩
      · rintro ⟨h1, h2⟩
        rcases Nat.eq_or_lt_of_le h1 with h | h
        · left; exact h.symm
        · right; exact ⟨h, h2⟩
    · simp only [hh, if_false, ih, key, Bool.false_eq_true]
      constructor
      · rintro ⟨h1, h2⟩
        exact ⟨le_of_lt h1, h2⟩
      · rintro ⟨h1, f, h2, h3⟩
        rcases Nat.eq_or_lt_of_le h1 with h | h
        · subst h
          simp at h2
          subst h2
          exact absurd h3 hh
        · exact ⟨h, f, h2, h3⟩

theorem caughtNow_sorted (hx hy : ℚ) (l : List Fish) (k : Nat) :
    (caughtNow hx hy k l).Pairwise (fun a b => a < b) := by
  induction l generalizing k with
  | nil => simp [caughtNow]
  | cons a rest ih =>
    unfold caughtNow
    by_cases hh : hit hx hy a = true
    · simp only [hh, if_true, List.pairwise_cons]
      refine ⟨?_, ih (k + 1)⟩
      intro b hb
      exact ((mem_caughtNow hx hy rest (k + 1) b).1 hb).1
    · simp only [hh, if_false, Bool.false_eq_true]
      exact ih (k + 1)

theorem caughtNow_nodup (hx hy : ℚ) (l : List Fish) (k : Nat) :
    (caughtNow hx hy k l).Nodup :=
  (caughtNow_sorted hx hy l k).imp (fun h => ne_of_lt h)

theorem caughtNow_sum (hx hy : ℚ) (l : List Fish) (k : Nat) (g : Nat → ℚ)
    (hg : ∀ j f, l[j]? = some f → g (k + j) = f.type.value) :
    ((caughtNow hx hy k l).map g).sum
      = ((l.filter (hit hx hy)).map (fun f => f.type.value)).sum := by
  induction l generalizing k with
  | nil => simp [caughtNow]
  | cons a rest ih =>
    have h0 : g k = a.type.value := by
      have := hg 0 a (by simp)
      simpa using this
    have hrest : ∀ j f, rest[j]? = some f → g (k + 1 + j) = f.type.value := by
      intro j f hj
      have := hg (j + 1) f (by simpa using hj)
      rw [← this]; congr 1; omega
    unfold caughtNow
    by_cases hh : hit hx hy a = true
    · simp only [hh, if_true, List.map_cons, List.sum_cons, List.filter_cons, ih (k + 1) hrest, h0]
    · simp only [hh, if_false, Bool.false_eq_true, List.filter_cons, ih (k + 1) hrest]

theorem caughtAt_map_move (W : ℚ) (l : List Fish) (i : Nat) :
    caughtAt (l.map (moveFish W)) i = caughtAt l i := by
  unfold caughtAt
  rw [List.getElem?_map]
  cases l[i]? with
  | none => rfl
  | some f => exact moveFish_caught W f

theorem valueAt_map_move (W : ℚ) (l : List Fish) (i : Nat) :
    valueAt (l.map (moveFish W)) i = valueAt l i := by
  unfold valueAt
  rw [List.getElem?_map]
  cases l[i]? with
  | none => rfl
  | some f => exact congrArg FishType.value (moveFish_type W f)

theorem valueAt_map_catch (hx hy : ℚ) (l : List Fish) (i : Nat) :
    valueAt (l.map (catchFish hx hy)) i = valueAt l i := by
  unfold valueAt
  rw [List.getElem?_map]
  cases l[i]? with
  | none => rfl
  | some f => exact congrArg FishType.value (catchFish_type hx hy f)

theorem caughtAt_map_catch (hx hy : ℚ) (l : List Fish) (i : Nat) :
    caughtAt (l.map (catchFish hx hy)) i = true ↔
      caughtAt l i = true ∨ i ∈ caughtNow hx hy 0 l := by
  rw [mem_caughtNow]
  unfold caughtAt
  rw [List.getElem?_map]
  simp only [Nat.sub_zero, Nat.zero_le, true_and]
  cases h : l[i]? with
  | none => simp
  | some f => simp [catchFish_caught]

theorem caughtValue_map_move (W : ℚ) (l : List Fish) :
    caughtValue (l.map (moveFish W)) = caughtValue l := by
  unfold caughtValue
  induction l with
  | nil => rfl
  | cons a rest ih =>
    simp only [List.map_cons, List.filter_cons, moveFish_caught]
    by_cases h : a.caught = true
    · simp only [h, if_true, List.map_cons, List.sum_cons, ih, moveFish_type]
    · simp only [h, if_false, ih, Bool.false_eq_true]

theorem caughtValue_map_catch (hx hy : ℚ) (l : List Fish) :
    caughtValue (l.map (catchFish hx hy)) =
      caughtValue l + ((l.filter (hit hx hy)).map (fun f => f.type.value)).sum := by
  unfold caughtValue
  induction l with
  | nil => simp
  | cons a rest ih =>
    simp only [List.map_cons, List.filter_cons, catchFish_caught]
    by_cases h : a.caught = true
    · have hh := hit_of_caught hx hy a h
      simp only [h, hh, Bool.or_false, if_true, List.map_cons, List.sum_cons, ih, catchFish_type,
        Bool.false_eq_true, if_false]
      ring
    · have h2 : a.caught = false := by simpa using h
      by_cases hh : hit hx hy a = true
      · simp only [h2, hh, Bool.false_or, if_true, List.map_cons, List.sum_cons, ih,
          catchFish_type, Bool.false_eq_true, if_false]
        ring
      · have hh2 : hit hx hy a = false := by simpa using hh
        simp only [h2, hh2, Bool.or_false, Bool.false_eq_true, if_false, ih]

/-! ## Game simulation: the scoring invariant -/

theorem valueAt_fun_move (W : ℚ) (l : List Fish) :
    valueAt (l.map (moveFish W)) = valueAt l :=
  funext (valueAt_map_move W l)

theorem valueAt_fun_catch (hx hy : ℚ) (l : List Fish) :
    valueAt (l.map (catchFish hx hy)) = valueAt l :=
  funext (valueAt_map_catch hx hy l)

theorem caughtNow_sum_valueAt (hx hy : ℚ) (l : List Fish) :
    ((caughtNow hx hy 0 l).map (valueAt l)).sum
      = ((l.filter (hit hx hy)).map (fun f => f.type.value)).sum := by
  apply caughtNow_sum
  intro j f hj
  simp [valueAt, hj]

theorem not_mem_caughtNow_of_caughtAt (hx hy : ℚ) (l : List Fish) (i : Nat)
    (h : caughtAt l i = true) : i ∉ caughtNow hx hy 0 l := by
  rw [mem_caughtNow]
  rintro ⟨_, f, hf, hh⟩
  simp only [Nat.sub_zero] at hf
  have : f.caught = true := by simpa [caughtAt, hf] using h
  rw [hit_of_caught hx hy f this] at hh
  exact absurd hh (by decide)

theorem scoreInv_update (s : State) (dt : ℚ) (h : ScoreInv s) : ScoreInv (update s dt) := by
  obtain ⟨hnd, hmem, hval, hsum⟩ := h
  unfold ScoreInv
  rw [update_fish, update_hookCollected, update_coins]
  by_cases hr : risesInTick s
  · simp only [hr, if_true]
    generalize (update s dt).hookX = hx
    generalize (update s dt).hookY = hy
    refine ⟨?_, ?_, ?_, ?_⟩
    · refine List.Nodup.append hnd (caughtNow_nodup _ _ _ _) ?_
      intro i hi hi2
      have h1 : caughtAt (s.fish.map (moveFish s.CANVAS_WIDTH)) i = true := by
        rw [caughtAt_map_move]; exact (hmem i).1 hi
      exact not_mem_caughtNow_of_caughtAt hx hy _ i h1 hi2
    · intro i
      rw [caughtAt_map_catch, caughtAt_map_move, List.mem_append, hmem i]
    · rw [caughtValue_map_catch, caughtValue_map_move, hval]
    · rw [List.map_append, List.sum_append, valueAt_fun_catch, caughtNow_sum_valueAt,
        valueAt_fun_move, ← hsum]
  · simp only [hr, if_false, List.append_nil, add_zero]
    refine ⟨hnd, ?_, ?_, ?_⟩
    · intro i
      rw [caughtAt_map_move]; exact hmem i
    · rw [caughtValue_map_move]; exact hval
    · rw [valueAt_fun_move]; exact hsum

theorem createFish_caught (s : State) (rnd : Nat → ℚ) (i : Nat) :
    (createFish s rnd i).caught = false := rfl

theorem scoreInv_resetRun (s : State) (rnd : Nat → ℚ) : ScoreInv (resetRun s rnd) := by
  obtain ⟨s0, hf⟩ : ∃ s0, (resetRun s rnd).fish = (List.range 36).map (createFish s0 rnd) :=
    ⟨_, rfl⟩
  have hc : (resetRun s rnd).hookCollected = [] := rfl
  have hz : (resetRun s rnd).coins = 0 := rfl
  unfold ScoreInv
  rw [hc, hz, hf]
  refine ⟨List.nodup_nil, ?_, ?_, by simp⟩
  · intro i
    simp only [List.not_mem_nil, false_iff]
    unfold caughtAt
    rw [List.getElem?_map]
    cases (List.range 36)[i]? with
    | none => simp
    | some k => simp [createFish_caught]
  · unfold caughtValue
    have : ((List.range 36).map (createFish s0 rnd)).filter (fun f => f.caught) = [] := by
      rw [List.filter_eq_nil_iff]
      intro f hf
      obtain ⟨k, _, rfl⟩ := List.mem_map.1 hf
      simp [createFish_caught]
    rw [this]
    rfl

/-- An event that is neither a frame nor a reset leaves the fish, the collected
list and the coins alone. -/
theorem step_other (s : State) (e : Event) (hres : e.resets = false)
    (hfr : ∀ ts, e ≠ Event.frame ts) :
    (step s e).fish = s.fish ∧ (step s e).hookCollected = s.hookCollected ∧
      (step s e).coins = s.coins := by
  cases e with
  | frame ts => exact absurd rfl (hfr ts)
  | click =>
    simp only [step, clickListener]
    split_ifs <;> exact ⟨rfl, rfl, rfl⟩
  | pointerdown x =>
    simp only [step, pointerdownListener]
    split_ifs <;> exact ⟨rfl, rfl, rfl⟩
  | pointermove x =>
    simp only [step, pointermoveListener]
    split_ifs <;> exact ⟨rfl, rfl, rfl⟩
  | pointerup => exact ⟨rfl, rfl, rfl⟩
  | pointercancel => exact ⟨rfl, rfl, rfl⟩
  | resize w h => exact ⟨rfl, rfl, rfl⟩
  | tryAgainClick rnd => simp [Event.resets] at hres
  | startGameClick name rnd => simp [Event.resets] at hres

theorem scoreInv_congr {s t : State} (h : ScoreInv s) (h1 : t.fish = s.fish)
    (h2 : t.hookCollected = s.hookCollected) (h3 : t.coins = s.coins) : ScoreInv t := by
  unfold ScoreInv at h ⊢
  rw [h1, h2, h3]; exact h

theorem scoreInv_step (s : State) (e : Event) (h : ScoreInv s) : ScoreInv (step s e) := by
  cases e with
  | frame ts =>
    show ScoreInv (loop s ts)
    unfold loop
    exact scoreInv_update _ _ (scoreInv_congr h rfl rfl rfl)
  | tryAgainClick rnd => exact scoreInv_resetRun _ rnd
  | startGameClick name rnd =>
    simp only [step, startGame]
    split_ifs
    · exact h
    · exact scoreInv_resetRun _ rnd
  | click =>
    obtain ⟨h1, h2, h3⟩ := step_other s Event.click rfl (fun _ hh => by cases hh)
    exact scoreInv_congr h h1 h2 h3
  | pointerdown x =>
    obtain ⟨h1, h2, h3⟩ := step_other s (Event.pointerdown x) rfl (fun _ hh => by cases hh)
    exact scoreInv_congr h h1 h2 h3
  | pointermove x =>
    obtain ⟨h1, h2, h3⟩ := step_other s (Event.pointermove x) rfl (fun _ hh => by cases hh)
    exact scoreInv_congr h h1 h2 h3
  | pointerup => exact scoreInv_congr h rfl rfl rfl
  | pointercancel => exact scoreInv_congr h rfl rfl rfl
  | resize w hh => exact scoreInv_congr h rfl rfl rfl

theorem scoreInv_of_reachable (s : State) (h : Reachable s) : ScoreInv s := by
  induction h with
  | reset s rnd => exact scoreInv_resetRun s rnd
  | tick s dt _ ih => exact scoreInv_update s dt ih
  | event s e _ ih => exact scoreInv_step s e ih

/-! ## Game simulation: catching -/

theorem caught_frozen_update (s : State) (dt : ℚ) (i : Nat) (f : Fish)
    (hf : s.fish[i]? = some f) (hc : f.caught = true) :
    (update s dt).fish[i]? = some f ∧
      (update s dt).hookCollected.count i = s.hookCollected.count i := by
  have hm : (s.fish.map (moveFish s.CANVAS_WIDTH))[i]? = some f := by
    rw [List.getElem?_map, hf]
    simp [moveFish_of_caught _ f hc]
  rw [update_fish, update_hookCollected]
  by_cases hr : risesInTick s
  · simp only [hr, if_true]
    constructor
    · rw [List.getElem?_map, hm]
      simp [catchFish_of_caught _ _ f hc]
    · have hn := not_mem_caughtNow_of_caughtAt (update s dt).hookX (update s dt).hookY
        (s.fish.map (moveFish s.CANVAS_WIDTH)) i (by simp [caughtAt, hm, hc])
      rw [List.count_append, List.count_eq_zero_of_not_mem hn, add_zero]
  · simp only [hr, if_false, List.append_nil]
    exact ⟨hm, trivial⟩

theorem caught_frozen_step (s : State) (e : Event) (hres : e.resets = false) (i : Nat)
    (f : Fish) (hf : s.fish[i]? = some f) (hc : f.caught = true) :
    (step s e).fish[i]? = some f ∧
      (step s e).hookCollected.count i = s.hookCollected.count i := by
  by_cases hfr : ∃ ts, e = Event.frame ts
  · obtain ⟨ts, rfl⟩ := hfr
    show (loop s ts).fish[i]? = some f ∧ _
    unfold loop
    exact caught_frozen_update _ _ i f hf hc
  · obtain ⟨h1, h2, _⟩ := step_other s e hres (fun ts h => hfr ⟨ts, h⟩)
    rw [h1, h2]
    exact ⟨hf, rfl⟩

theorem caught_frozen_run (evs : List Event) (s : State) (hres : ∀ e ∈ evs, e.resets = false)
    (i : Nat) (f : Fish) (hf : s.fish[i]? = some f) (hc : f.caught = true) :
    (run s evs).fish[i]? = some f ∧
      (run s evs).hookCollected.count i = s.hookCollected.count i := by
  induction evs generalizing s with
  | nil => exact ⟨hf, rfl⟩
  | cons e rest ih =>
    have h1 := caught_frozen_step s e (hres e (List.mem_cons_self _ _)) i f hf hc
    have h2 := ih (step s e) (fun x hx => hres x (List.mem_cons_of_mem _ hx)) h1.1
    exact ⟨h2.1, h2.2.trans h1.2⟩

/-- C5: a fish that is not caught before a tick is marked caught by the tick
exactly when the tick runs the rising block (the phase is rising after the
tick, that is, it was rising, or it was dropping and the hook reached the
bottom) and the fish, at its moved position, is within 22 horizontally and 14
vertically of the hook position of that tick. A caught fish keeps flag,
position and velocity under a tick and under every sequence of events without
`resetRun`, and its reference is not pushed on the collected list again. -/
theorem catch_iff_near_and_caught_frozen (s : State) (dt : ℚ) (i : Nat) (f : Fish)
    (hf : s.fish[i]? = some f) :
    (f.caught = false →
      ∃ f2, (update s dt).fish[i]? = some f2 ∧
        f2.x = (moveFish s.CANVAS_WIDTH f).x ∧ f2.y = f.y ∧
        (f2.caught = true ↔
          ((update s dt).phase = Phase.rising ∧
            |f2.x - (update s dt).hookX| < 22 ∧ |f2.y - (update s dt).hookY| < 14))) ∧
    ((update s dt).phase = Phase.rising ↔
      (s.phase = Phase.rising ∨
        (s.phase = Phase.dropping ∧ s.hookY + s.fallSpeed ≥ WATER_TOP_Y + s.maxDepth))) ∧
    (f.caught = true →
      (update s dt).fish[i]? = some f ∧
      (update s dt).hookCollected.count i = s.hookCollected.count i ∧
      ∀ evs : List Event, (∀ e ∈ evs, e.resets = false) →
        (run s evs).fish[i]? = some f ∧
        (run s evs).hookCollected.count i = s.hookCollected.count i) := by
  refine ⟨?_, update_phase_rising_iff s dt, ?_⟩
  · intro hc
    have hm : (s.fish.map (moveFish s.CANVAS_WIDTH))[i]? = some (moveFish s.CANVAS_WIDTH f) := by
      rw [List.getElem?_map, hf]; rfl
    have hmc : (moveFish s.CANVAS_WIDTH f).caught = false := by
      rw [moveFish_caught]; exact hc
    rw [update_fish, update_phase_rising_iff]
    by_cases hr : risesInTick s
    · simp only [hr, if_true, true_and]
      refine ⟨_, by rw [List.getElem?_map, hm]; rfl, catchFish_x _ _ _, ?_, ?_⟩
      · rw [catchFish_y, moveFish_y]
      · rw [catchFish_caught, hmc, Bool.false_or, hit_iff, catchFish_x, catchFish_y]
        simp [hmc, near]
    · simp only [hr, if_false, false_and, iff_false]
      exact ⟨_, hm, rfl, moveFish_y _ _, by simp [hmc]⟩
  · intro hc
    have h1 := caught_frozen_update s dt i f hf hc
    exact ⟨h1.1, h1.2, fun evs hres => caught_frozen_run evs s hres i f hf hc⟩

/-- Witness of C5: the sample fish in the sample state. -/
theorem catch_iff_near_and_caught_frozen_witness :
    sampleState.fish[0]? = some sampleFish ∧
    ∃ f2, (update sampleState 1).fish[0]? = some f2 ∧
      f2.x = (moveFish sampleState.CANVAS_WIDTH sampleFish).x ∧ f2.y = sampleFish.y ∧
      (f2.caught = true ↔
        ((update sampleState 1).phase = Phase.rising ∧
          |f2.x - (update sampleState 1).hookX| < 22 ∧
          |f2.y - (update sampleState 1).hookY| < 14)) :=
  ⟨rfl, (catch_iff_near_and_caught_frozen sampleState 1 0 sampleFish rfl).1 rfl⟩

/-! ## Game simulation: scoring -/

theorem update_new_collected (s : State) (dt : ℚ) :
    ∃ new, (update s dt).hookCollected = s.hookCollected ++ new ∧
      new.Pairwise (fun a b => a < b) ∧
      ∀ i, i ∈ new ↔ (caughtAt s.fish i = false ∧ caughtAt (update s dt).fish i = true) := by
  refine ⟨_, update_hookCollected s dt, ?_, ?_⟩
  · split_ifs
    · exact caughtNow_sorted _ _ _ _
    · exact List.Pairwise.nil
  · intro i
    rw [update_fish]
    by_cases hr : risesInTick s
    · simp only [hr, if_true]
      rw [caughtAt_map_catch, caughtAt_map_move]
      constructor
      · intro hi
        refine ⟨?_, Or.inr hi⟩
        cases hca : caughtAt s.fish i with
        | false => rfl
        | true =>
          have h1 : caughtAt (s.fish.map (moveFish s.CANVAS_WIDTH)) i = true := by
            rw [caughtAt_map_move]; exact hca
          exact absurd hi (not_mem_caughtNow_of_caughtAt _ _ _ i h1)
      · rintro ⟨h1, h2 | h2⟩
        · rw [h1] at h2; exact absurd h2 (by decide)
        · exact h2
    · simp only [hr, if_false, List.not_mem_nil, false_iff, caughtAt_map_move]
      rintro ⟨h1, h2⟩
      rw [h1] at h2; exact absurd h2 (by decide)

/-- C6: in every state reachable from `resetRun` by ticks and events, the coins
are the sum of `type.value` over the fish whose caught flag is set; the
collected list holds exactly the references to those fish, each once; the
coins are the sum of the values over the collected list; and the list is in
catch order: a tick appends the references of the fish it catches, in array
order, and an event without `resetRun` only appends. -/
theorem score_is_sum_of_collected (s : State) (h : Reachable s) :
    s.coins = caughtValue s.fish ∧
    s.hookCollected.Nodup ∧
    (∀ i, i ∈ s.hookCollected ↔ caughtAt s.fish i = true) ∧
    s.coins = (s.hookCollected.map (valueAt s.fish)).sum ∧
    (∀ dt, ∃ new, (update s dt).hookCollected = s.hookCollected ++ new ∧
      new.Pairwise (fun a b => a < b) ∧
      ∀ i, i ∈ new ↔ (caughtAt s.fish i = false ∧ caughtAt (update s dt).fish i = true)) ∧
    (∀ e : Event, e.resets = false →
      ∃ new, (step s e).hookCollected = s.hookCollected ++ new) := by
  obtain ⟨h1, h2, h3, h4⟩ := scoreInv_of_reachable s h
  refine ⟨h3, h1, h2, h4, update_new_collected s, ?_⟩
  intro e hres
  by_cases hfr : ∃ ts, e = Event.frame ts
  · obtain ⟨ts, rfl⟩ := hfr
    show ∃ new, (loop s ts).hookCollected = _
    unfold loop
    obtain ⟨new, hn, _⟩ := update_new_collected { s with last := ts } (min 33 (ts - s.last) / 16.67)
    exact ⟨new, hn⟩
  · obtain ⟨_, h6, _⟩ := step_other s e hres (fun ts hh => hfr ⟨ts, hh⟩)
    exact ⟨[], by rw [h6, List.append_nil]⟩

/-- Witness of C6: one tick of the sample state after a reset of the round. -/
theorem score_is_sum_of_collected_witness :
    Reachable (update (resetRun sampleState (fun _ => 0)) 1) ∧
    (update (resetRun sampleState (fun _ => 0)) 1).coins
      = caughtValue (update (resetRun sampleState (fun _ => 0)) 1).fish :=
  ⟨Reachable.tick _ _ (Reachable.reset _ _),
    (score_is_sum_of_collected _ (Reachable.tick _ 1 (Reachable.reset sampleState (fun _ => 0)))).1⟩

/-! ## Game simulation: fish motion -/

theorem update_fish_moved (s : State) (dt : ℚ) (i : Nat) (f : Fish)
    (hf : s.fish[i]? = some f) :
    ∃ f2, (update s dt).fish[i]? = some f2 ∧ f2.x = (moveFish s.CANVAS_WIDTH f).x ∧
      f2.vx = (moveFish s.CANVAS_WIDTH f).vx := by
  have hm : (s.fish.map (moveFish s.CANVAS_WIDTH))[i]? = some (moveFish s.CANVAS_WIDTH f) := by
    rw [List.getElem?_map, hf]; rfl
  rw [update_fish]
  by_cases hr : risesInTick s
  · simp only [hr, if_true]
    refine ⟨_, by rw [List.getElem?_map, hm]; rfl, catchFish_x _ _ _, ?_⟩
    unfold catchFish
    split_ifs <;> rfl
  · simp only [hr, if_false]
    exact ⟨_, hm, rfl, rfl⟩

/-- C7, as amended: for an uncaught fish and a tick, if `x + vx < 30` then
afterwards `x = 30` and `vx` is negated; if `x + vx` is not below 30 and is
above `CANVAS_WIDTH - 30` then `x = CANVAS_WIDTH - 30` and `vx` is negated;
otherwise `x` becomes `x + vx` and `vx` is unchanged. The magnitude of `vx` is
preserved, and when `CANVAS_WIDTH ≥ 60` the fish ends within
`[30, CANVAS_WIDTH - 30]`. -/
theorem fish_motion_reflects (s : State) (dt : ℚ) (i : Nat) (f : Fish)
    (hf : s.fish[i]? = some f) (hc : f.caught = false) :
    ∃ f2, (update s dt).fish[i]? = some f2 ∧
      (f.x + f.vx < 30 → f2.x = 30 ∧ f2.vx = -f.vx) ∧
      (¬ (f.x + f.vx < 30) → f.x + f.vx > s.CANVAS_WIDTH - 30 →
        f2.x = s.CANVAS_WIDTH - 30 ∧ f2.vx = -f.vx) ∧
      (¬ (f.x + f.vx < 30) → ¬ (f.x + f.vx > s.CANVAS_WIDTH - 30) →
        f2.x = f.x + f.vx ∧ f2.vx = f.vx) ∧
      |f2.vx| = |f.vx| ∧
      (60 ≤ s.CANVAS_WIDTH → 30 ≤ f2.x ∧ f2.x ≤ s.CANVAS_WIDTH - 30) := by
  obtain ⟨f2, h2, hx, hv⟩ := update_fish_moved s dt i f hf
  refine ⟨f2, h2, ?_⟩
  rw [hx, hv]
  unfold moveFish
  simp only [hc, Bool.false_eq_true, if_false]
  by_cases h1 : f.x + f.vx < 30
  · rw [if_pos h1]
    refine ⟨fun _ => ⟨rfl, by ring⟩, fun h => absurd h1 h, fun h => absurd h1 h, ?_, ?_⟩
    · show |f.vx * -1| = |f.vx|
      rw [mul_neg, mul_one, abs_neg]
    · intro hw
      constructor
      · exact le_refl _
      · show (30 : ℚ) ≤ s.CANVAS_WIDTH - 30
        linarith
  · rw [if_neg h1]
    by_cases h2 : f.x + f.vx > s.CANVAS_WIDTH - 30
    · rw [if_pos h2]
      refine ⟨fun h => absurd h h1, fun _ _ => ⟨rfl, by ring⟩, fun _ h => absurd h2 h, ?_, ?_⟩
      · show |f.vx * -1| = |f.vx|
        rw [mul_neg, mul_one, abs_neg]
      · intro hw
        constructor
        · show (30 : ℚ) ≤ s.CANVAS_WIDTH - 30
          linarith
        · exact le_refl _
    · rw [if_neg h2]
      refine ⟨fun h => absurd h h1, fun _ h => absurd h h2, fun _ _ => ⟨rfl, rfl⟩, rfl, ?_⟩
      intro _
      constructor
      · show (30 : ℚ) ≤ f.x + f.vx
        exact not_lt.1 h1
      · show f.x + f.vx ≤ s.CANVAS_WIDTH - 30
        exact not_lt.1 h2

/-- Witness of the amended C7: the sample fish in the sample state. -/
theorem fish_motion_reflects_witness :
    sampleState.fish[0]? = some sampleFish ∧ sampleFish.caught = false ∧
    ∃ f2, (update sampleState 1).fish[0]? = some f2 ∧ |f2.vx| = |sampleFish.vx| :=
  have h := fish_motion_reflects sampleState 1 0 sampleFish rfl rfl
  ⟨rfl, rfl, h.choose, h.choose_spec.1, h.choose_spec.2.2.2.2.1⟩

theorem update_idle_fish (s : State) (dt : ℚ) (h : s.phase = Phase.idle) :
    (update s dt).fish = s.fish.map (moveFish s.CANVAS_WIDTH) := by
  rw [update_fish, if_neg]
  rintro (h1 | ⟨h1, _⟩) <;> rw [h] at h1 <;> exact absurd h1 (by decide)

/-- Counterexample to C7 as stated: in a window 50 wide the right bound is 20;
a fish at `x = 25` with `vx = -1` has `x + vx = 24`, above the right bound, and
after the tick it is at 30 with `vx = 1`, not at the right bound 20. -/
theorem fish_motion_right_bound_counterexample :
    narrowState.fish[0]? = some narrowFish ∧ narrowFish.caught = false ∧
    narrowFish.x + narrowFish.vx > narrowState.CANVAS_WIDTH - 30 ∧
    (update narrowState 1).fish[0]? = some { narrowFish with x := 30, vx := 1 } ∧
    (30 : ℚ) ≠ narrowState.CANVAS_WIDTH - 30 := by
  refine ⟨rfl, rfl, ?_, ?_, ?_⟩
  · norm_num [narrowFish, narrowState, initialState]
  · rw [update_idle_fish narrowState 1 rfl]
    norm_num [narrowFish, narrowState, initialState, moveFish]
  · norm_num [narrowState, initialState]

/-! ## Game simulation: phases -/

theorem step_phase_other (s : State) (e : Event) (hres : e.resets = false)
    (hfr : ∀ ts, e ≠ Event.frame ts) (hcl : e ≠ Event.click) : (step s e).phase = s.phase := by
  cases e with
  | frame ts => exact absurd rfl (hfr ts)
  | click => exact absurd rfl hcl
  | pointerdown x =>
    simp only [step, pointerdownListener]
    split_ifs <;> rfl
  | pointermove x =>
    simp only [step, pointermoveListener]
    split_ifs <;> rfl
  | pointerup => rfl
  | pointercancel => rfl
  | resize w h => rfl
  | tryAgainClick rnd => simp [Event.resets] at hres
  | startGameClick name rnd => simp [Event.resets] at hres

theorem step_click_phase (s : State) :
    (step s Event.click).phase = if s.phase = Phase.idle then Phase.dropping else s.phase := by
  simp only [step, clickListener]
  by_cases h : s.phase = Phase.idle
  · have h2 : ¬ (Phase.dropping = Phase.idle) := by decide
    simp only [h, if_true, h2, if_false]
  · simp only [h, if_false]

theorem step_reset_phase (s : State) (e : Event) (hres : e.resets = true) :
    (step s e).phase = s.phase ∨ (step s e).phase = Phase.idle := by
  cases e with
  | tryAgainClick rnd => right; rfl
  | startGameClick name rnd =>
    simp only [step, startGame]
    split_ifs
    · left; rfl
    · right; rfl
  | frame ts => simp [Event.resets] at hres
  | click => simp [Event.resets] at hres
  | pointerdown x => simp [Event.resets] at hres
  | pointermove x => simp [Event.resets] at hres
  | pointerup => simp [Event.resets] at hres
  | pointercancel => simp [Event.resets] at hres
  | resize w h => simp [Event.resets] at hres

/-- C8: a tick leaves an idle state idle, takes a dropping state to dropping
or to rising, to rising exactly when `hookY + fallSpeed ≥ WATER_TOP_Y +
maxDepth`, and leaves a rising state rising. Among the events, a change of
phase is either idle to dropping by a click, or dropping to rising by a frame,
or a return to idle by an event that runs `resetRun`; a click in idle does
start the drop and `resetRun` does give idle. -/
theorem phase_transitions (s : State) :
    (∀ dt, s.phase = Phase.idle → (update s dt).phase = Phase.idle) ∧
    (∀ dt, s.phase = Phase.dropping →
      ((update s dt).phase = Phase.dropping ∨ (update s dt).phase = Phase.rising) ∧
      ((update s dt).phase = Phase.rising ↔
        s.hookY + s.fallSpeed ≥ WATER_TOP_Y + s.maxDepth)) ∧
    (∀ dt, s.phase = Phase.rising → (update s dt).phase = Phase.rising) ∧
    (∀ e : Event, (step s e).phase ≠ s.phase →
      (s.phase = Phase.idle ∧ e = Event.click ∧ (step s e).phase = Phase.dropping) ∨
      (s.phase = Phase.dropping ∧ (∃ ts, e = Event.frame ts) ∧
        (step s e).phase = Phase.rising) ∨
      (e.resets = true ∧ (step s e).phase = Phase.idle)) ∧
    (s.phase = Phase.idle → (step s Event.click).phase = Phase.dropping) ∧
    (∀ rnd, (resetRun s rnd).phase = Phase.idle) := by
  have hupd : ∀ (t : State) (dt : ℚ), (update t dt).phase ≠ t.phase →
      t.phase = Phase.dropping ∧ (update t dt).phase = Phase.rising := by
    intro t dt hne
    rw [update_phase] at hne ⊢
    by_cases hr : risesInTick t
    · simp only [hr, if_true] at hne ⊢
      rcases hr with h | ⟨h, _⟩
      · exact absurd h.symm hne
      · exact ⟨h, trivial⟩
    · simp only [hr, if_false] at hne
      exact absurd rfl hne
  refine ⟨?_, ?_, ?_, ?_, ?_, fun _ => rfl⟩
  · intro dt h
    by_contra hne
    have := (hupd s dt (by rw [h]; exact hne)).1
    rw [h] at this; exact absurd this (by decide)
  · intro dt h
    refine ⟨?_, ?_⟩
    · by_cases hne : (update s dt).phase = s.phase
      · left; rw [hne, h]
      · right; exact (hupd s dt hne).2
    · rw [update_phase_rising_iff]
      constructor
      · rintro (h1 | ⟨_, h2⟩)
        · rw [h] at h1; exact absurd h1 (by decide)
        · exact h2
      · intro h2; exact Or.inr ⟨h, h2⟩
  · intro dt h
    rw [update_phase_rising_iff]; exact Or.inl h
  · intro e hne
    by_cases hres : e.resets = true
    · right; right
      rcases step_reset_phase s e hres with h | h
      · exact absurd h hne
      · exact ⟨hres, h⟩
    · have hres2 : e.resets = false := by simpa using hres
      by_cases hfr : ∃ ts, e = Event.frame ts
      · obtain ⟨ts, rfl⟩ := hfr
        right; left
        have h1 := hupd { s with last := ts } (min 33 (ts - s.last) / 16.67) hne
        exact ⟨h1.1, ⟨ts, rfl⟩, h1.2⟩
      · by_cases hcl : e = Event.click
        · subst hcl
          left
          rw [step_click_phase] at hne ⊢
          by_cases hi : s.phase = Phase.idle
          · simp only [hi, if_true]
            exact ⟨trivial, trivial, trivial⟩
          · simp only [hi, if_false] at hne
            exact absurd rfl hne
        · exact absurd (step_phase_other s e hres2 (fun ts h => hfr ⟨ts, h⟩) hcl) hne
  · intro h
    rw [step_click_phase, if_pos h]

/-! ## Game simulation: time step and easing -/

theorem update_hookY_dropping (s : State) (dt : ℚ) (hp : s.phase = Phase.dropping)
    (hb : s.hookY + s.fallSpeed < WATER_TOP_Y + s.maxDepth) :
    (update s dt).hookY = s.hookY + s.fallSpeed := by
  rcases update_cases s dt with ⟨hp2, _, _⟩ | ⟨_, _, hb2, h⟩ | ⟨_, _, hb2, _⟩ | ⟨hp2, _, _⟩
  · rw [hp] at hp2; exact absurd hp2 (by decide)
  · rw [h]
    unfold dropBlock
    simp only [State.maxDepth]
    have hb3 : ¬ ((fishMotion s).hookY + (fishMotion s).fallSpeed ≥ WATER_TOP_Y + START_DEPTH) :=
      hb2
    rw [if_neg hb3]
    rfl
  · exact absurd hb2 (not_le.2 hb)
  · rw [hp] at hp2; exact absurd hp2 (by decide)

theorem update_hookY_rising (s : State) (dt : ℚ) (hp : s.phase = Phase.rising) :
    (update s dt).hookY = s.hookY - s.riseSpeed := by
  rcases update_cases s dt with ⟨hp2, _, _⟩ | ⟨hp2, _, _, _⟩ | ⟨hp2, _, _, _⟩ | ⟨_, _, h⟩
  · rw [hp] at hp2; exact absurd hp2 (by decide)
  · rw [hp] at hp2; exact absurd hp2 (by decide)
  · rw [hp] at hp2; exact absurd hp2 (by decide)
  · rw [h, riseBlock_hookY]; rfl

/-- C9 (the code does not do what the claim says): `loop` does compute
`dt = min(33, e) / 16.67` and pass it to `update`, but `update` gives the same
state for every `dt`. In the dropping state at the water surface with a frame
33 ms after the last one, the hook descends by `fallSpeed = 3.5` to 83.5, not
by `fallSpeed * dt`. -/
theorem loop_dt_not_applied :
    (∀ (s : State) (ts : ℚ),
      loop s ts = update { s with last := ts } (min 33 (ts - s.last) / 16.67)) ∧
    (∀ (s : State) (dt1 dt2 : ℚ), update s dt1 = update s dt2) ∧
    droppingState.phase = Phase.dropping ∧
    (loop droppingState 33).hookY = droppingState.hookY + droppingState.fallSpeed ∧
    (loop droppingState 33).hookY ≠
      droppingState.hookY +
        droppingState.fallSpeed * (min 33 (33 - droppingState.last) / 16.67) := by
  have h1 : (loop droppingState 33).hookY = droppingState.hookY + droppingState.fallSpeed := by
    unfold loop
    rw [update_hookY_dropping _ _ rfl]
    norm_num [droppingState, initialState, State.maxDepth, START_DEPTH, WATER_TOP_Y]
  refine ⟨fun _ _ => rfl, fun _ _ _ => rfl, rfl, h1, ?_⟩
  rw [h1]
  norm_num [droppingState, initialState]

theorem update_hookX_rising (s : State) (dt : ℚ) (hp : s.phase = Phase.rising) :
    (update s dt).hookX = lerp s.hookX s.hookTargetX HORIZONTAL_SMOOTHING := by
  rcases update_cases s dt with ⟨hp2, _, _⟩ | ⟨hp2, _, _, _⟩ | ⟨hp2, _, _, _⟩ | ⟨_, _, h⟩
  · rw [hp] at hp2; exact absurd hp2 (by decide)
  · rw [hp] at hp2; exact absurd hp2 (by decide)
  · rw [hp] at hp2; exact absurd hp2 (by decide)
  · rw [h, riseBlock_hookX]; rfl

theorem update_hookX_bottom (s : State) (dt : ℚ) (hp : s.phase = Phase.dropping)
    (hb : s.hookY + s.fallSpeed ≥ WATER_TOP_Y + s.maxDepth) :
    (update s dt).hookX =
      lerp (lerp s.hookX s.hookTargetX HORIZONTAL_SMOOTHING) s.hookTargetX
        HORIZONTAL_SMOOTHING := by
  rcases update_cases s dt with ⟨hp2, _, _⟩ | ⟨_, _, hb2, _⟩ | ⟨_, _, _, h⟩ | ⟨hp2, _, _⟩
  · rw [hp] at hp2; exact absurd hp2 (by decide)
  · exact absurd hb hb2
  · rw [h, riseBlock_hookX, dropBlock_hookX, dropBlock_hookTargetX]; rfl
  · rw [hp] at hp2; exact absurd hp2 (by decide)

/-- C10, as amended: in a tick that starts rising, or dropping without reaching
the bottom, `hookX` becomes `old + (hookTargetX - old) * 0.18`; in the tick
in which a dropping hook reaches the bottom both blocks run and the easing is
applied twice; in idle `hookX` is unchanged. -/
theorem hook_easing (s : State) (dt : ℚ) :
    (s.phase = Phase.rising →
      (update s dt).hookX = s.hookX + (s.hookTargetX - s.hookX) * 0.18) ∧
    (s.phase = Phase.dropping → s.hookY + s.fallSpeed < WATER_TOP_Y + s.maxDepth →
      (update s dt).hookX = s.hookX + (s.hookTargetX - s.hookX) * 0.18) ∧
    (s.phase = Phase.dropping → s.hookY + s.fallSpeed ≥ WATER_TOP_Y + s.maxDepth →
      (update s dt).hookX =
        (s.hookX + (s.hookTargetX - s.hookX) * 0.18) +
          (s.hookTargetX - (s.hookX + (s.hookTargetX - s.hookX) * 0.18)) * 0.18) ∧
    (s.phase = Phase.idle → (update s dt).hookX = s.hookX) := by
  have hm1 : (fishMotion s).hookX = s.hookX := rfl
  have hm2 : (fishMotion s).hookTargetX = s.hookTargetX := rfl
  rcases update_cases s dt with ⟨hp, hr, h⟩ | ⟨hp, hr, hb, h⟩ | ⟨hp, hr, hb, h⟩ | ⟨hp, hr, h⟩
  · refine ⟨?_, ?_, ?_, ?_⟩
    · intro h1; rw [hp] at h1; exact absurd h1 (by decide)
    · intro h1; rw [hp] at h1; exact absurd h1 (by decide)
    · intro h1; rw [hp] at h1; exact absurd h1 (by decide)
    · intro _; rw [h]; rfl
  · refine ⟨?_, ?_, ?_, ?_⟩
    · intro h1; rw [hp] at h1; exact absurd h1 (by decide)
    · intro _ _
      rw [h, dropBlock_hookX, hm1, hm2]; rfl
    · intro _ h2; exact absurd h2 hb
    · intro h1; rw [hp] at h1; exact absurd h1 (by decide)
  · refine ⟨?_, ?_, ?_, ?_⟩
    · intro h1; rw [hp] at h1; exact absurd h1 (by decide)
    · intro _ h2; exact absurd hb (not_le.2 h2)
    · intro _ _
      rw [h, riseBlock_hookX, dropBlock_hookX, dropBlock_hookTargetX, hm1, hm2]; rfl
    · intro h1; rw [hp] at h1; exact absurd h1 (by decide)
  · refine ⟨?_, ?_, ?_, ?_⟩
    · intro _
      rw [h, riseBlock_hookX, hm1, hm2]; rfl
    · intro h1; rw [hp] at h1; exact absurd h1 (by decide)
    · intro h1; rw [hp] at h1; exact absurd h1 (by decide)
    · intro h1; rw [hp] at h1; exact absurd h1 (by decide)

/-- Counterexample to C10 as stated: the state is dropping at `hookY = 2079`
with `hookX = 0` and target 100; the tick reaches the bottom, runs both blocks
and leaves `hookX = 32.76`, not `0 + (100 - 0) * 0.18 = 18`. -/
theorem hook_easing_counterexample :
    bottomState.phase = Phase.dropping ∧
    (update bottomState 1).hookX = 32.76 ∧
    (update bottomState 1).hookX ≠
      bottomState.hookX + (bottomState.hookTargetX - bottomState.hookX) * 0.18 := by
  have h1 : (update bottomState 1).hookX = 32.76 := by
    have hb : bottomState.hookY + bottomState.fallSpeed ≥ WATER_TOP_Y + bottomState.maxDepth := by
      norm_num [bottomState, initialState, State.maxDepth, START_DEPTH, WATER_TOP_Y]
    rw [update_hookX_bottom bottomState 1 rfl hb]
    norm_num [bottomState, initialState, lerp, HORIZONTAL_SMOOTHING]
  refine ⟨rfl, h1, ?_⟩
  rw [h1]
  norm_num [bottomState, initialState]

/-- The example of the specification: the hook rising through
`(500, WATER_TOP_Y + 1000 ± 10)` catches the fish at `(500, WATER_TOP_Y + 1000)`,
whose value is added to the coins. -/
theorem sample_catch :
    (update sampleState 1).coins = 5 ∧ (update sampleState 1).hookCollected = [0] := by
  have hr : risesInTick sampleState := Or.inl rfl
  have hx : (update sampleState 1).hookX = 500 := by
    rw [update_hookX_rising sampleState 1 rfl]
    norm_num [sampleState, initialState, lerp, HORIZONTAL_SMOOTHING]
  have hy : (update sampleState 1).hookY = 1083.25 := by
    rw [update_hookY_rising sampleState 1 rfl]; norm_num [sampleState, initialState]
  rw [update_coins, update_hookCollected, if_pos hr, if_pos hr, hx, hy]
  norm_num [sampleState, initialState, sampleFish, moveFish, hit, near, caughtNow, abs_lt]

/-! ## Game simulation: round end -/

theorem riseBlock_submitted (s : State) :
    (riseBlock s).submitted =
      if s.hookY - s.riseSpeed ≤ WATER_TOP_Y then
        s.submitted ++ [(s.playerName, (riseBlock s).coins)]
      else s.submitted := by
  unfold riseBlock
  dsimp only
  split_ifs <;> rfl

theorem riseBlock_topScore (s : State) :
    (riseBlock s).topScore =
      if s.hookY - s.riseSpeed ≤ WATER_TOP_Y then max s.topScore (riseBlock s).coins
      else s.topScore := by
  unfold riseBlock
  dsimp only
  by_cases hc : s.hookY - s.riseSpeed ≤ WATER_TOP_Y
  · simp only [hc, if_true]
    split_ifs with h
    · exact (max_eq_right (le_of_lt h)).symm
    · exact (max_eq_left (not_lt.1 h)).symm
  · simp only [hc, if_false]

theorem riseBlock_riseSpeed (s : State) : (riseBlock s).riseSpeed = s.riseSpeed := by
  unfold riseBlock
  dsimp only
  split_ifs <;> rfl

theorem riseBlock_playerName (s : State) : (riseBlock s).playerName = s.playerName := by
  unfold riseBlock
  dsimp only
  split_ifs <;> rfl

theorem update_rising_eq (s : State) (dt : ℚ) (hp : s.phase = Phase.rising) :
    update s dt = riseBlock (fishMotion s) := by
  rcases update_cases s dt with ⟨hp2, _, _⟩ | ⟨hp2, _, _, _⟩ | ⟨hp2, _, _, _⟩ | ⟨_, _, h⟩
  · rw [hp] at hp2; exact absurd hp2 (by decide)
  · rw [hp] at hp2; exact absurd hp2 (by decide)
  · rw [hp] at hp2; exact absurd hp2 (by decide)
  · exact h

/-- What a tick does at the round end, for a state that starts rising. -/
theorem update_rising_round_end (s : State) (dt : ℚ) (hp : s.phase = Phase.rising) :
    (update s dt).submitted =
      (if s.hookY - s.riseSpeed ≤ WATER_TOP_Y then
        s.submitted ++ [(s.playerName, (update s dt).coins)]
      else s.submitted) ∧
    (update s dt).topScore =
      (if s.hookY - s.riseSpeed ≤ WATER_TOP_Y then max s.topScore (update s dt).coins
      else s.topScore) ∧
    (update s dt).phase = Phase.rising ∧
    (update s dt).hookY = s.hookY - s.riseSpeed ∧
    (update s dt).riseSpeed = s.riseSpeed ∧
    (update s dt).playerName = s.playerName := by
  rw [update_rising_eq s dt hp]
  refine ⟨riseBlock_submitted _, riseBlock_topScore _, ?_, riseBlock_hookY _,
    riseBlock_riseSpeed _, riseBlock_playerName _⟩
  rw [riseBlock_phase]; exact hp

/-- An event that is neither a frame nor a reset leaves the hook depth, the
rise speed and the submissions alone, and keeps a rising phase. -/
theorem step_other_round (s : State) (e : Event) (hres : e.resets = false)
    (hfr : e.isFrame = false) :
    (step s e).hookY = s.hookY ∧ (step s e).riseSpeed = s.riseSpeed ∧
      (step s e).submitted = s.submitted ∧
      (s.phase = Phase.rising → (step s e).phase = Phase.rising) := by
  cases e with
  | frame ts => simp [Event.isFrame] at hfr
  | click =>
    refine ⟨?_, ?_, ?_, ?_⟩
    · simp only [step, clickListener]; split_ifs <;> rfl
    · simp only [step, clickListener]; split_ifs <;> rfl
    · simp only [step, clickListener]; split_ifs <;> rfl
    · intro hp
      rw [step_click_phase, hp]
      rfl
  | pointerdown x =>
    simp only [step, pointerdownListener]
    split_ifs <;> exact ⟨rfl, rfl, rfl, fun h => h⟩
  | pointermove x =>
    simp only [step, pointermoveListener]
    split_ifs <;> exact ⟨rfl, rfl, rfl, fun h => h⟩
  | pointerup => exact ⟨rfl, rfl, rfl, fun h => h⟩
  | pointercancel => exact ⟨rfl, rfl, rfl, fun h => h⟩
  | resize w h => exact ⟨rfl, rfl, rfl, fun h => h⟩
  | tryAgainClick rnd => simp [Event.resets] at hres
  | startGameClick name rnd => simp [Event.resets] at hres

/-- Once a rising hook is at or above the water surface, every event without
`resetRun` keeps it so, and every frame among them appends one submission. -/
theorem round_end_run (evs : List Event) (s : State) (hres : ∀ e ∈ evs, e.resets = false)
    (hp : s.phase = Phase.rising) (hy : s.hookY ≤ WATER_TOP_Y) (hs : 0 < s.riseSpeed) :
    (run s evs).phase = Phase.rising ∧ (run s evs).hookY ≤ WATER_TOP_Y ∧
      (run s evs).riseSpeed = s.riseSpeed ∧
      (run s evs).submitted.length = s.submitted.length + evs.countP Event.isFrame := by
  induction evs generalizing s with
  | nil => exact ⟨hp, hy, rfl, rfl⟩
  | cons e rest ih =>
    have hres2 : ∀ x ∈ rest, x.resets = false := fun x hx => hres x (List.mem_cons_of_mem _ hx)
    have hstep : (step s e).phase = Phase.rising ∧ (step s e).hookY ≤ WATER_TOP_Y ∧
        (step s e).riseSpeed = s.riseSpeed ∧
        (step s e).submitted.length
          = s.submitted.length + (if e.isFrame = true then 1 else 0) := by
      cases hfr : e.isFrame with
      | true =>
        cases e with
        | frame ts =>
          have h := update_rising_round_end { s with last := ts }
            (min 33 (ts - s.last) / 16.67) hp
          have hc : s.hookY - s.riseSpeed ≤ WATER_TOP_Y := by linarith
          show (loop s ts).phase = _ ∧ (loop s ts).hookY ≤ _ ∧ (loop s ts).riseSpeed = _ ∧
            (loop s ts).submitted.length = _
          unfold loop
          refine ⟨h.2.2.1, ?_, h.2.2.2.2.1, ?_⟩
          · rw [h.2.2.2.1]; exact hc
          · rw [h.1]
            have hc2 : ({ s with last := ts } : State).hookY
                - ({ s with last := ts } : State).riseSpeed ≤ WATER_TOP_Y := hc
            rw [if_pos hc2]
            simp
        | click => simp [Event.isFrame] at hfr
        | pointerdown x => simp [Event.isFrame] at hfr
        | pointermove x => simp [Event.isFrame] at hfr
        | pointerup => simp [Event.isFrame] at hfr
        | pointercancel => simp [Event.isFrame] at hfr
        | resize w h => simp [Event.isFrame] at hfr
        | tryAgainClick rnd => simp [Event.isFrame] at hfr
        | startGameClick name rnd => simp [Event.isFrame] at hfr
      | false =>
        obtain ⟨h1, h2, h3, h4⟩ :=
          step_other_round s e (hres e (List.mem_cons_self _ _)) hfr
        refine ⟨h4 hp, by rw [h1]; exact hy, h2, ?_⟩
        rw [h3]; simp
    obtain ⟨h1, h2, h3, h4⟩ := hstep
    have := ih (step s e) hres2 h1 h2 (by rw [h3]; exact hs)
    refine ⟨this.1, this.2.1, this.2.2.1.trans h3, ?_⟩
    show (run (step s e) rest).submitted.length = _
    rw [this.2.2.2, h4, List.countP_cons]
    omega

theorem dropBlock_riseSpeed (s : State) : (dropBlock s).riseSpeed = s.riseSpeed := by
  unfold dropBlock
  dsimp only
  split_ifs <;> rfl

theorem update_riseSpeed (s : State) (dt : ℚ) : (update s dt).riseSpeed = s.riseSpeed := by
  rcases update_cases s dt with ⟨_, _, h⟩ | ⟨_, _, _, h⟩ | ⟨_, _, _, h⟩ | ⟨_, _, h⟩
  · rw [h]; rfl
  · rw [h, dropBlock_riseSpeed]; rfl
  · rw [h, riseBlock_riseSpeed, dropBlock_riseSpeed]; rfl
  · rw [h, riseBlock_riseSpeed]; rfl

theorem step_riseSpeed (s : State) (e : Event) : (step s e).riseSpeed = s.riseSpeed := by
  cases e with
  | frame ts =>
    show (loop s ts).riseSpeed = _
    unfold loop
    rw [update_riseSpeed]
  | click => simp only [step, clickListener]; split_ifs <;> rfl
  | pointerdown x => simp only [step, pointerdownListener]; split_ifs <;> rfl
  | pointermove x => simp only [step, pointermoveListener]; split_ifs <;> rfl
  | pointerup => rfl
  | pointercancel => rfl
  | resize w h => rfl
  | tryAgainClick rnd => rfl
  | startGameClick name rnd => simp only [step, startGame]; split_ifs <;> rfl

theorem run_riseSpeed (evs : List Event) (s : State) : (run s evs).riseSpeed = s.riseSpeed := by
  induction evs generalizing s with
  | nil => rfl
  | cons e rest ih =>
    show (run (step s e) rest).riseSpeed = _
    rw [ih, step_riseSpeed]

/-- C12: for a state in phase rising, a tick appends the submission
`(playerName, coins)`, with the coins as they are after the collisions of the
tick, exactly when `hookY - riseSpeed ≤ WATER_TOP_Y`, and then sets `topScore`
to `max topScore coins`; otherwise the log and the top score are unchanged.
The tick keeps the phase rising and lowers `hookY` by `riseSpeed`, which is
1.75 in every state run from the initial one. So when the round end has been
reached, the next tick appends another submission, and over any events without
`resetRun` the log grows by one entry per frame. -/
theorem round_end_repeats (s : State) (dt : ℚ) (hp : s.phase = Phase.rising) :
    ((update s dt).submitted = s.submitted ++ [(s.playerName, (update s dt).coins)] ↔
      s.hookY - s.riseSpeed ≤ WATER_TOP_Y) ∧
    (s.hookY - s.riseSpeed ≤ WATER_TOP_Y →
      (update s dt).topScore = max s.topScore (update s dt).coins) ∧
    (¬ (s.hookY - s.riseSpeed ≤ WATER_TOP_Y) →
      (update s dt).submitted = s.submitted ∧ (update s dt).topScore = s.topScore) ∧
    (update s dt).phase = Phase.rising ∧
    (update s dt).hookY = s.hookY - s.riseSpeed ∧
    (0 < s.riseSpeed → (update s dt).hookY < s.hookY) ∧
    (∀ (w h : ℚ) (evs : List Event), (run (initialState w h) evs).riseSpeed = 1.75) ∧
    (0 < s.riseSpeed → s.hookY - s.riseSpeed ≤ WATER_TOP_Y →
      (∀ dt2, (update (update s dt) dt2).submitted =
        (s.submitted ++ [(s.playerName, (update s dt).coins)]) ++
          [(s.playerName, (update (update s dt) dt2).coins)]) ∧
      (∀ evs : List Event, (∀ e ∈ evs, e.resets = false) →
        (run (update s dt) evs).phase = Phase.rising ∧
        (run (update s dt) evs).hookY ≤ WATER_TOP_Y ∧
        (run (update s dt) evs).submitted.length
          = s.submitted.length + 1 + evs.countP Event.isFrame)) := by
  obtain ⟨hsub, htop, hph, hhy, hrs, hpn⟩ := update_rising_round_end s dt hp
  refine ⟨?_, ?_, ?_, hph, hhy, ?_, ?_, ?_⟩
  · constructor
    · intro h
      by_contra hc
      rw [hsub, if_neg hc] at h
      have := congrArg List.length h
      simp at this
    · intro hc
      rw [hsub, if_pos hc]
  · intro hc
    rw [htop, if_pos hc]
  · intro hc
    rw [hsub, htop, if_neg hc, if_neg hc]
    exact ⟨rfl, rfl⟩
  · intro hs
    rw [hhy]; linarith
  · intro w h evs
    rw [run_riseSpeed]
    norm_num [initialState]
  · intro hs hc
    have hy2 : (update s dt).hookY ≤ WATER_TOP_Y := by rw [hhy]; exact hc
    have hs2 : 0 < (update s dt).riseSpeed := by rw [hrs]; exact hs
    have hsub1 : (update s dt).submitted = s.submitted ++ [(s.playerName, (update s dt).coins)] := by
      rw [hsub, if_pos hc]
    constructor
    · intro dt2
      obtain ⟨hsub2, _⟩ := update_rising_round_end (update s dt) dt2 hph
      have hc2 : (update s dt).hookY - (update s dt).riseSpeed ≤ WATER_TOP_Y := by linarith
      rw [hsub2, if_pos hc2, hpn, hsub1]
    · intro evs hres
      obtain ⟨h1, h2, _, h4⟩ := round_end_run evs (update s dt) hres hph hy2 hs2
      refine ⟨h1, h2, ?_⟩
      rw [h4, hsub1]
      simp

/-- Witness of C12: the surfacing state, one tick below the water surface. -/
theorem round_end_repeats_witness :
    surfacingState.phase = Phase.rising ∧
    ((update surfacingState 1).submitted
        = surfacingState.submitted ++ [(surfacingState.playerName, (update surfacingState 1).coins)] ↔
      surfacingState.hookY - surfacingState.riseSpeed ≤ WATER_TOP_Y) :=
  ⟨rfl, (round_end_repeats surfacingState 1 rfl).1⟩

/-- The surfacing state evaluated: the first tick submits `("Ada", 30)` and
raises the top score from 10 to 30, and the second tick submits again. -/
theorem surfacing_twice :
    (update surfacingState 1).submitted = [("Ada", 30)] ∧
    (update surfacingState 1).topScore = 30 ∧
    (update (update surfacingState 1) 1).submitted = [("Ada", 30), ("Ada", 30)] := by
  have hc : surfacingState.hookY - surfacingState.riseSpeed ≤ WATER_TOP_Y := by
    norm_num [surfacingState, initialState, WATER_TOP_Y]
  have hcoins : (update surfacingState 1).coins = 30 := by
    rw [update_coins]
    norm_num [surfacingState, initialState]
  obtain ⟨hsub, htop, hph, hhy, hrs, hpn⟩ := update_rising_round_end surfacingState 1 rfl
  have hcoins2 : (update (update surfacingState 1) 1).coins = 30 := by
    rw [update_coins, update_fish, hcoins]
    norm_num [surfacingState, initialState]
  obtain ⟨hsub2, _⟩ := update_rising_round_end (update surfacingState 1) 1 hph
  have hc2 : (update surfacingState 1).hookY - (update surfacingState 1).riseSpeed
      ≤ WATER_TOP_Y := by
    rw [hhy, hrs]
    norm_num [surfacingState, initialState, WATER_TOP_Y]
  rw [if_pos hc, hcoins] at hsub htop
  rw [if_pos hc2, hcoins2, hpn, hsub] at hsub2
  refine ⟨hsub, ?_, hsub2⟩
  rw [htop]
  norm_num [surfacingState, initialState]

/-! ## Binary64 arithmetic: lemmas -/

theorem roundEven_intCast (n : Int) : roundEven (n : ℚ) = n := by
  unfold roundEven
  simp

theorem roundEven_le_floor_add_one (m : ℚ) : roundEven m ≤ ⌊m⌋ + 1 := by
  unfold roundEven
  split_ifs <;> omega

theorem floor_le_roundEven (m : ℚ) : ⌊m⌋ ≤ roundEven m := by
  unfold roundEven
  split_ifs <;> omega

theorem roundEven_mono {m n : ℚ} (h : m ≤ n) : roundEven m ≤ roundEven n := by
  have hf : ⌊m⌋ ≤ ⌊n⌋ := Int.floor_mono h
  rcases lt_or_eq_of_le hf with hlt | heq
  · calc roundEven m ≤ ⌊m⌋ + 1 := roundEven_le_floor_add_one m
      _ ≤ ⌊n⌋ := hlt
      _ ≤ roundEven n := floor_le_roundEven n
  · unfold roundEven
    rw [heq]
    have hd : m - ⌊n⌋ ≤ n - ⌊n⌋ := by linarith
    split_ifs <;> first | omega | (exfalso; linarith)

theorem ulp_eq (q : ℚ) : ulp q = (2 : ℚ) ^ (expo q - 52) := rfl

theorem ulp_pos (q : ℚ) : 0 < ulp q := by
  rw [ulp_eq]; positivity

theorem expo_mono {x y : ℚ} (hx : 0 < x) (h : x ≤ y) : expo x ≤ expo y := by
  unfold expo
  have hy : 0 < y := lt_of_lt_of_le hx h
  rw [abs_of_pos hx, abs_of_pos hy]
  exact max_le_max (Int.log_mono_right hx h) (le_refl _)

theorem lt_two_zpow_expo (x : ℚ) (hx : 0 ≤ x) : x < (2 : ℚ) ^ (expo x + 1) := by
  have h1 : x < ((2 : ℕ) : ℚ) ^ (Int.log 2 x + 1) := Int.lt_zpow_succ_log_self (by norm_num) x
  have h2 : ((2 : ℕ) : ℚ) ^ (Int.log 2 x + 1) ≤ (2 : ℚ) ^ (expo x + 1) := by
    have : Int.log 2 x + 1 ≤ expo x + 1 := by
      unfold expo
      rw [abs_of_nonneg hx]
      have := le_max_left (Int.log 2 x) (-1022)
      omega
    exact_mod_cast zpow_le_zpow_right₀ (by norm_num : (1 : ℚ) ≤ 2) this
  exact lt_of_lt_of_le h1 h2

theorem two_zpow_expo_le (y : ℚ) (hy : 0 < y) (h : -1022 < expo y) :
    (2 : ℚ) ^ expo y ≤ y := by
  have he : expo y = Int.log 2 y := by
    unfold expo at h ⊢
    rw [abs_of_pos hy] at h ⊢
    rcases max_cases (Int.log 2 y) (-1022) with ⟨h1, _⟩ | ⟨h1, _⟩
    · exact h1
    · rw [h1] at h; exact absurd h (lt_irrefl _)
  rw [he]
  exact_mod_cast Int.zpow_log_le_self (by norm_num : 1 < 2) hy

theorem fl_zero : fl 0 = 0 := by
  unfold fl
  simp [roundEven]

/-- Rounding is monotone on the non-negative rationals. -/
theorem fl_mono {x y : ℚ} (hx : 0 ≤ x) (h : x ≤ y) : fl x ≤ fl y := by
  rcases eq_or_lt_of_le hx with h0 | hpos
  · subst h0
    rw [fl_zero]
    unfold fl
    have : 0 ≤ roundEven (y / ulp y) := by
      have h1 : roundEven (0 : ℚ) ≤ roundEven (y / ulp y) :=
        roundEven_mono (div_nonneg h (le_of_lt (ulp_pos y)))
      have h2 : roundEven (0 : ℚ) = 0 := by
        have := roundEven_intCast 0
        simpa using this
      rw [h2] at h1; exact h1
    exact mul_nonneg (by exact_mod_cast this) (le_of_lt (ulp_pos y))
  · have hy : 0 < y := lt_of_lt_of_le hpos h
    rcases eq_or_lt_of_le (expo_mono hpos h) with he | he
    · unfold fl
      have hu : ulp y = ulp x := by rw [ulp_eq, ulp_eq, he]
      rw [hu]
      have h1 : roundEven (x / ulp x) ≤ roundEven (y / ulp x) :=
        roundEven_mono (div_le_div_of_nonneg_right h (le_of_lt (ulp_pos x)))
      exact mul_le_mul_of_nonneg_right (by exact_mod_cast h1) (le_of_lt (ulp_pos x))
    · -- different binades: fl x ≤ 2 ^ (expo x + 1) ≤ 2 ^ expo y ≤ fl y
      have hA : fl x ≤ (2 : ℚ) ^ (expo x + 1) := by
        unfold fl
        have h1 : x / ulp x ≤ ((2 ^ 53 : Int) : ℚ) := by
          rw [div_le_iff₀ (ulp_pos x), ulp_eq]
          have : ((2 ^ 53 : Int) : ℚ) * (2 : ℚ) ^ (expo x - 52) = (2 : ℚ) ^ (expo x + 1) := by
            have h53 : ((2 ^ 53 : Int) : ℚ) = (2 : ℚ) ^ (53 : Int) := by norm_num
            rw [h53, ← zpow_add₀ (by norm_num : (2 : ℚ) ≠ 0)]
            congr 1; ring
          rw [this]
          exact le_of_lt (lt_two_zpow_expo x hx)
        have h2 : roundEven (x / ulp x) ≤ 2 ^ 53 := by
          have := roundEven_mono h1
          rwa [roundEven_intCast] at this
        have h3 : (roundEven (x / ulp x) : ℚ) * ulp x ≤ ((2 ^ 53 : Int) : ℚ) * ulp x :=
          mul_le_mul_of_nonneg_right (by exact_mod_cast h2) (le_of_lt (ulp_pos x))
        have h4 : ((2 ^ 53 : Int) : ℚ) * ulp x = (2 : ℚ) ^ (expo x + 1) := by
          rw [ulp_eq]
          have h53 : ((2 ^ 53 : Int) : ℚ) = (2 : ℚ) ^ (53 : Int) := by norm_num
          rw [h53, ← zpow_add₀ (by norm_num : (2 : ℚ) ≠ 0)]
          congr 1; ring
        rw [h4] at h3; exact h3
      have hB : (2 : ℚ) ^ expo y ≤ fl y := by
        unfold fl
        have hlow : -1022 < expo y := by
          have : -1022 ≤ expo x := le_max_right _ _
          omega
        have h1 : ((2 ^ 52 : Int) : ℚ) ≤ y / ulp y := by
          rw [le_div_iff₀ (ulp_pos y), ulp_eq]
          have : ((2 ^ 52 : Int) : ℚ) * (2 : ℚ) ^ (expo y - 52) = (2 : ℚ) ^ expo y := by
            have h52 : ((2 ^ 52 : Int) : ℚ) = (2 : ℚ) ^ (52 : Int) := by norm_num
            rw [h52, ← zpow_add₀ (by norm_num : (2 : ℚ) ≠ 0)]
            congr 1; ring
          rw [this]
          exact two_zpow_expo_le y hy hlow
        have h2 : (2 ^ 52 : Int) ≤ roundEven (y / ulp y) := by
          have := roundEven_mono h1
          rwa [roundEven_intCast] at this
        have h3 : ((2 ^ 52 : Int) : ℚ) * ulp y ≤ (roundEven (y / ulp y) : ℚ) * ulp y :=
          mul_le_mul_of_nonneg_right (by exact_mod_cast h2) (le_of_lt (ulp_pos y))
        have h4 : ((2 ^ 52 : Int) : ℚ) * ulp y = (2 : ℚ) ^ expo y := by
          rw [ulp_eq]
          have h52 : ((2 ^ 52 : Int) : ℚ) = (2 : ℚ) ^ (52 : Int) := by norm_num
          rw [h52, ← zpow_add₀ (by norm_num : (2 : ℚ) ≠ 0)]
          congr 1; ring
        rw [h4] at h3; exact h3
      have hC : (2 : ℚ) ^ (expo x + 1) ≤ (2 : ℚ) ^ expo y :=
        zpow_le_zpow_right₀ (by norm_num : (1 : ℚ) ≤ 2) (by omega)
      exact le_trans hA (le_trans hC hB)

theorem expo_eq (q : ℚ) (e : Int) (h1 : (2 : ℚ) ^ e ≤ |q|) (h2 : |q| < (2 : ℚ) ^ (e + 1))
    (he : -1022 ≤ e) : expo q = e := by
  have hpos : 0 < |q| := lt_of_lt_of_le (by positivity) h1
  have ha : e ≤ Int.log 2 |q| := by
    rw [← Int.zpow_le_iff_le_log (by norm_num : 1 < 2) hpos]
    exact_mod_cast h1
  have hb : Int.log 2 |q| < e + 1 := by
    rw [← Int.lt_zpow_iff_log_lt (by norm_num : 1 < 2) hpos]
    exact_mod_cast h2
  unfold expo
  have hc : Int.log 2 |q| = e := by omega
  rw [hc]
  exact max_eq_left he

/-- Evaluation of `fl` from the binade of the argument and the rounded
significand. -/
theorem fl_eq (q : ℚ) (e n : Int) (h1 : (2 : ℚ) ^ e ≤ |q|) (h2 : |q| < (2 : ℚ) ^ (e + 1))
    (he : -1022 ≤ e) (hn : roundEven (q / (2 : ℚ) ^ (e - 52)) = n) :
    fl q = (n : ℚ) * (2 : ℚ) ^ (e - 52) := by
  unfold fl
  rw [ulp_eq, expo_eq q e h1 h2 he, hn]

theorem roundEven_eq_of_abs_lt (m : ℚ) (n : Int) (h : |m - n| < 1 / 2) : roundEven m = n := by
  rw [abs_lt] at h
  unfold roundEven
  by_cases hnm : (n : ℚ) ≤ m
  · have hf : ⌊m⌋ = n := by
      rw [Int.floor_eq_iff]
      constructor
      · exact hnm
      · linarith [h.2]
    rw [hf]
    have : m - (n : ℚ) < 1 / 2 := h.2
    rw [if_pos this]
  · have hf : ⌊m⌋ = n - 1 := by
      rw [Int.floor_eq_iff]
      push_cast
      constructor
      · linarith [h.1]
      · linarith [not_le.1 hnm]
    rw [hf]
    push_cast
    have h1 : ¬ (m - ((n : ℚ) - 1) < 1 / 2) := by linarith [h.1]
    have h2 : 1 / 2 < m - ((n : ℚ) - 1) := by linarith [h.1]
    rw [if_neg h1, if_pos h2]
    omega

theorem roundEven_tie_up (m : ℚ) (n : Int) (h : m = (n : ℚ) - 1 / 2) (hn : n % 2 = 0) :
    roundEven m = n := by
  have hf : ⌊m⌋ = n - 1 := by
    rw [Int.floor_eq_iff]
    push_cast
    constructor <;> linarith
  unfold roundEven
  rw [hf]
  push_cast
  have h1 : ¬ (m - ((n : ℚ) - 1) < 1 / 2) := by linarith
  have h2 : ¬ (1 / 2 < m - ((n : ℚ) - 1)) := by linarith
  have h3 : ¬ ((n - 1) % 2 = 0) := by omega
  rw [if_neg h1, if_neg h2, if_neg h3]
  omega

theorem roundEven_tie_down (m : ℚ) (n : Int) (h : m = (n : ℚ) + 1 / 2) (hn : n % 2 = 0) :
    roundEven m = n := by
  have hf : ⌊m⌋ = n := by
    rw [Int.floor_eq_iff]
    constructor <;> linarith
  unfold roundEven
  rw [hf]
  have h1 : ¬ (m - (n : ℚ) < 1 / 2) := by linarith
  have h2 : ¬ (1 / 2 < m - (n : ℚ)) := by linarith
  rw [if_neg h1, if_neg h2, if_pos hn]

/-- A number with a significand of at most 53 bits in its binade is fixed. -/
theorem fl_eq_self (q : ℚ) (e n : Int) (h1 : (2 : ℚ) ^ e ≤ |q|) (h2 : |q| < (2 : ℚ) ^ (e + 1))
    (he : -1022 ≤ e) (hn : q = (n : ℚ) * (2 : ℚ) ^ (e - 52)) : fl q = q := by
  have hu : (2 : ℚ) ^ (e - 52) ≠ 0 := by positivity
  rw [fl_eq q e n h1 h2 he, ← hn]
  rw [hn, mul_div_assoc, div_self hu, mul_one]
  exact roundEven_intCast n

theorem roundEven_neg (m : ℚ) : roundEven (-m) = -roundEven m := by
  by_cases h1 : m - ⌊m⌋ < 1 / 2
  · have hr : roundEven m = ⌊m⌋ := by unfold roundEven; rw [if_pos h1]
    rw [hr]
    apply roundEven_eq_of_abs_lt
    rw [abs_lt]
    push_cast
    have := Int.floor_le m
    constructor <;> linarith
  · by_cases h2 : 1 / 2 < m - ⌊m⌋
    · have hr : roundEven m = ⌊m⌋ + 1 := by unfold roundEven; rw [if_neg h1, if_pos h2]
      rw [hr]
      apply roundEven_eq_of_abs_lt
      rw [abs_lt]
      push_cast
      have := Int.lt_floor_add_one m
      constructor <;> linarith
    · have hm : m = (⌊m⌋ : ℚ) + 1 / 2 := by linarith [not_lt.1 h1, not_lt.1 h2]
      by_cases h3 : ⌊m⌋ % 2 = 0
      · have hr : roundEven m = ⌊m⌋ := by
          unfold roundEven; rw [if_neg h1, if_neg h2, if_pos h3]
        rw [hr]
        apply roundEven_tie_up
        · push_cast; linarith
        · omega
      · have hr : roundEven m = ⌊m⌋ + 1 := by
          unfold roundEven; rw [if_neg h1, if_neg h2, if_neg h3]
        rw [hr]
        apply roundEven_tie_down
        · push_cast; linarith
        · omega

theorem fl_neg (q : ℚ) : fl (-q) = -fl q := by
  have hu : ulp (-q) = ulp q := by
    unfold ulp expo
    rw [abs_neg]
  unfold fl
  rw [hu, neg_div, roundEven_neg]
  push_cast
  ring

/-- A binary64 number below 1 is at most `1 - 2 ^ (-53)`. -/
theorem double_lt_one (r : ℚ) (hd : IsDouble r) (h0 : 0 ≤ r) (h1 : r < 1) :
    r ≤ 1 - 1 / 2 ^ 53 := by
  by_cases hhalf : r < 1 / 2
  · have : (1 : ℚ) / 2 ≤ 1 - 1 / 2 ^ 53 := by norm_num
    linarith
  · have hge : (1 : ℚ) / 2 ≤ r := not_lt.1 hhalf
    have hfl := fl_eq r (-1) (roundEven (r / (2 : ℚ) ^ ((-1 : Int) - 52)))
      (by rw [abs_of_nonneg h0]; norm_num; linarith)
      (by rw [abs_of_nonneg h0]; norm_num; exact h1) (by norm_num) rfl
    have hd2 : fl r = r := hd
    rw [hd2] at hfl
    have hu : (2 : ℚ) ^ ((-1 : Int) - 52) = 1 / 2 ^ 53 := by norm_num
    rw [hu] at hfl
    generalize roundEven (r / (1 / 2 ^ 53)) = n at hfl
    have hn : (n : ℚ) < 2 ^ 53 := by
      rw [hfl] at h1
      have h53 : (0 : ℚ) < 2 ^ 53 := by positivity
      have := mul_lt_mul_of_pos_right h1 h53
      rw [mul_assoc, one_div, inv_mul_cancel₀ (ne_of_gt h53), mul_one, one_mul] at this
      exact this
    have hn2 : n < 2 ^ 53 := by exact_mod_cast hn
    have hn3 : n ≤ 2 ^ 53 - 1 := by omega
    have hn4 : (n : ℚ) ≤ 2 ^ 53 - 1 := by exact_mod_cast hn3
    rw [hfl]
    have h53 : (0 : ℚ) < 1 / 2 ^ 53 := by positivity
    calc (n : ℚ) * (1 / 2 ^ 53) ≤ (2 ^ 53 - 1) * (1 / 2 ^ 53) :=
          mul_le_mul_of_nonneg_right hn4 (le_of_lt h53)
      _ = 1 - 1 / 2 ^ 53 := by norm_num

/-! ## Binary64 arithmetic: evaluations -/

theorem fl_40 : fl 40 = 40 :=
  fl_eq_self 40 5 (40 * 2 ^ 47) (by rw [abs_of_pos (by norm_num)]; norm_num)
    (by rw [abs_of_pos (by norm_num)]; norm_num) (by norm_num) (by norm_num)

theorem fl_120 : fl 120 = 120 :=
  fl_eq_self 120 6 (120 * 2 ^ 46) (by rw [abs_of_pos (by norm_num)]; norm_num)
    (by rw [abs_of_pos (by norm_num)]; norm_num) (by norm_num) (by norm_num)

theorem fl_1960 : fl 1960 = 1960 :=
  fl_eq_self 1960 10 (1960 * 2 ^ 42) (by rw [abs_of_pos (by norm_num)]; norm_num)
    (by rw [abs_of_pos (by norm_num)]; norm_num) (by norm_num) (by norm_num)

theorem fl_2080 : fl 2080 = 2080 :=
  fl_eq_self 2080 11 (2080 * 2 ^ 41) (by rw [abs_of_pos (by norm_num)]; norm_num)
    (by rw [abs_of_pos (by norm_num)]; norm_num) (by norm_num) (by norm_num)

theorem fl_one : fl 1 = 1 :=
  fl_eq_self 1 0 (2 ^ 52) (by rw [abs_of_pos (by norm_num)]; norm_num)
    (by rw [abs_of_pos (by norm_num)]; norm_num) (by norm_num) (by norm_num)

theorem fl_two : fl 2 = 2 :=
  fl_eq_self 2 1 (2 ^ 52) (by rw [abs_of_pos (by norm_num)]; norm_num)
    (by rw [abs_of_pos (by norm_num)]; norm_num) (by norm_num) (by norm_num)

theorem fl_three : fl 3 = 3 :=
  fl_eq_self 3 1 (3 * 2 ^ 51) (by rw [abs_of_pos (by norm_num)]; norm_num)
    (by rw [abs_of_pos (by norm_num)]; norm_num) (by norm_num) (by norm_num)

theorem fl_half : fl (1 / 2) = (1 / 2) :=
  fl_eq_self (1 / 2) (-1) (2 ^ 52) (by rw [abs_of_pos (by norm_num)]; norm_num)
    (by rw [abs_of_pos (by norm_num)]; norm_num) (by norm_num) (by norm_num)

theorem fl_quarter : fl (1 / 4) = (1 / 4) :=
  fl_eq_self (1 / 4) (-2) (2 ^ 52) (by rw [abs_of_pos (by norm_num)]; norm_num)
    (by rw [abs_of_pos (by norm_num)]; norm_num) (by norm_num) (by norm_num)

theorem fl_three_eighths : fl (3 / 8) = (3 / 8) :=
  fl_eq_self (3 / 8) (-2) (3 * 2 ^ 51) (by rw [abs_of_pos (by norm_num)]; norm_num)
    (by rw [abs_of_pos (by norm_num)]; norm_num) (by norm_num) (by norm_num)

theorem fl_three_quarters : fl (3 / 4) = (3 / 4) :=
  fl_eq_self (3 / 4) (-1) (3 * 2 ^ 51) (by rw [abs_of_pos (by norm_num)]; norm_num)
    (by rw [abs_of_pos (by norm_num)]; norm_num) (by norm_num) (by norm_num)

theorem fl_three_halves : fl (3 / 2) = (3 / 2) :=
  fl_eq_self (3 / 2) 0 (3 * 2 ^ 51) (by rw [abs_of_pos (by norm_num)]; norm_num)
    (by rw [abs_of_pos (by norm_num)]; norm_num) (by norm_num) (by norm_num)

theorem fl_nine_eighths : fl (9 / 8) = (9 / 8) :=
  fl_eq_self (9 / 8) 0 (9 * 2 ^ 49) (by rw [abs_of_pos (by norm_num)]; norm_num)
    (by rw [abs_of_pos (by norm_num)]; norm_num) (by norm_num) (by norm_num)

theorem fl_nine_quarters : fl (9 / 4) = (9 / 4) :=
  fl_eq_self (9 / 4) 1 (9 * 2 ^ 49) (by rw [abs_of_pos (by norm_num)]; norm_num)
    (by rw [abs_of_pos (by norm_num)]; norm_num) (by norm_num) (by norm_num)

theorem fl_below_one : fl (1 - 1 / 2 ^ 53) = (1 - 1 / 2 ^ 53) :=
  fl_eq_self (1 - 1 / 2 ^ 53) (-1) (2 ^ 53 - 1) (by rw [abs_of_pos (by norm_num)]; norm_num)
    (by rw [abs_of_pos (by norm_num)]; norm_num) (by norm_num) (by norm_num)

theorem fl_below_two : fl (2 - 1 / 2 ^ 52) = (2 - 1 / 2 ^ 52) :=
  fl_eq_self (2 - 1 / 2 ^ 52) 0 (2 ^ 53 - 1) (by rw [abs_of_pos (by norm_num)]; norm_num)
    (by rw [abs_of_pos (by norm_num)]; norm_num) (by norm_num) (by norm_num)

theorem fl_below_four : fl (4 - 1 / 2 ^ 51) = (4 - 1 / 2 ^ 51) :=
  fl_eq_self (4 - 1 / 2 ^ 51) 1 (2 ^ 53 - 1) (by rw [abs_of_pos (by norm_num)]; norm_num)
    (by rw [abs_of_pos (by norm_num)]; norm_num) (by norm_num) (by norm_num)

theorem fl_below_three : fl (3 - 3 / 2 ^ 53) = 3 - 1 / 2 ^ 51 := by
  rw [fl_eq (3 - 3 / 2 ^ 53) 1 (3 * 2 ^ 51 - 1) (by rw [abs_of_pos (by norm_num)]; norm_num)
    (by rw [abs_of_pos (by norm_num)]; norm_num) (by norm_num)
    (roundEven_eq_of_abs_lt _ _ (by rw [abs_lt]; constructor <;> norm_num))]
  norm_num

theorem fl_tenth : fl (1 / 10) = 3602879701896397 / 2 ^ 55 := by
  rw [fl_eq (1 / 10) (-4) 7205759403792794 (by rw [abs_of_pos (by norm_num)]; norm_num)
    (by rw [abs_of_pos (by norm_num)]; norm_num) (by norm_num)
    (roundEven_eq_of_abs_lt _ _ (by rw [abs_lt]; constructor <;> norm_num))]
  norm_num

theorem fl_two_fifths : fl (2 / 5) = 3602879701896397 / 2 ^ 53 := by
  rw [fl_eq (2 / 5) (-2) 7205759403792794 (by rw [abs_of_pos (by norm_num)]; norm_num)
    (by rw [abs_of_pos (by norm_num)]; norm_num) (by norm_num)
    (roundEven_eq_of_abs_lt _ _ (by rw [abs_lt]; constructor <;> norm_num))]
  norm_num

theorem fl_thirteen_twentieths : fl (13 / 20) = 5854679515581645 / 2 ^ 53 := by
  rw [fl_eq (13 / 20) (-1) 5854679515581645 (by rw [abs_of_pos (by norm_num)]; norm_num)
    (by rw [abs_of_pos (by norm_num)]; norm_num) (by norm_num)
    (roundEven_eq_of_abs_lt _ _ (by rw [abs_lt]; constructor <;> norm_num))]
  norm_num

theorem fl_seventeen_twentieths : fl (17 / 20) = 7656119366529843 / 2 ^ 53 := by
  rw [fl_eq (17 / 20) (-1) 7656119366529843 (by rw [abs_of_pos (by norm_num)]; norm_num)
    (by rw [abs_of_pos (by norm_num)]; norm_num) (by norm_num)
    (roundEven_eq_of_abs_lt _ _ (by rw [abs_lt]; constructor <;> norm_num))]
  norm_num

theorem fl_tenth_fixed : fl (3602879701896397 / 2 ^ 55) = 3602879701896397 / 2 ^ 55 :=
  fl_eq_self _ (-4) 7205759403792794 (by rw [abs_of_pos (by norm_num)]; norm_num)
    (by rw [abs_of_pos (by norm_num)]; norm_num) (by norm_num) (by norm_num)

theorem fl_blue_diff :
    fl (3602879701896397 / 2 ^ 53 - 3602879701896397 / 2 ^ 55) = 1351079888211149 / 2 ^ 52 := by
  rw [fl_eq _ (-2) 5404319552844596 (by rw [abs_of_pos (by norm_num)]; norm_num)
    (by rw [abs_of_pos (by norm_num)]; norm_num) (by norm_num)
    (roundEven_tie_up _ _ (by norm_num) (by norm_num))]
  norm_num

theorem fl_red_diff :
    fl (5854679515581645 / 2 ^ 53 - 3602879701896397 / 2 ^ 55) = 2476979795053773 / 2 ^ 52 := by
  rw [fl_eq _ (-1) 4953959590107546 (by rw [abs_of_pos (by norm_num)]; norm_num)
    (by rw [abs_of_pos (by norm_num)]; norm_num) (by norm_num)
    (roundEven_eq_of_abs_lt _ _ (by rw [abs_lt]; constructor <;> norm_num))]
  norm_num

theorem fl_golden_diff :
    fl (7656119366529843 / 2 ^ 53 - 3602879701896397 / 2 ^ 55) = 3 / 4 := by
  rw [fl_eq _ (-1) 6755399441055744 (by rw [abs_of_pos (by norm_num)]; norm_num)
    (by rw [abs_of_pos (by norm_num)]; norm_num) (by norm_num)
    (roundEven_eq_of_abs_lt _ _ (by rw [abs_lt]; constructor <;> norm_num))]
  norm_num

/-! ## Game simulation: round initialisation -/

theorem mem_FISH_TYPES (ft : FishType) (h : ft ∈ FISH_TYPES) :
    ft = ⟨"white", "White", "#ffffff", 5, 1.0, 0.00⟩ ∨
    ft = ⟨"blue", "Blue", "#4dabf7", 15, 1.5, 0.40⟩ ∨
    ft = ⟨"red", "Red", "#ff6b6b", 25, 2.0, 0.65⟩ ∨
    ft = ⟨"golden", "Golden", "#ffd43b", 50, 3.0, 0.85⟩ := by
  simpa [FISH_TYPES] using h

theorem rarityThreshold_eq (ft : FishType) (a : ℚ) (h : fl ft.rarityDepth = a) :
    rarityThreshold ft = fl (a - 3602879701896397 / 2 ^ 55) := by
  unfold rarityThreshold
  have h1 : (0.1 : ℚ) = 1 / 10 := by norm_num
  rw [h, h1, fl_tenth]

/-- The thresholds `rarityDepth - 0.1` of the four tiers as computed in
binary64: `-0.1`, `0.30000000000000004`, `0.55` and `0.75` as doubles. -/
theorem rarityThreshold_values :
    FISH_TYPES.map rarityThreshold =
      [-(3602879701896397 / 2 ^ 55), 1351079888211149 / 2 ^ 52,
        2476979795053773 / 2 ^ 52, 3 / 4] := by
  have hw : rarityThreshold ⟨"white", "White", "#ffffff", 5, 1.0, 0.00⟩
      = -(3602879701896397 / 2 ^ 55) := by
    rw [rarityThreshold_eq _ 0 (by
      show fl (0.00 : ℚ) = 0
      have : (0.00 : ℚ) = 0 := by norm_num
      rw [this, fl_zero])]
    rw [zero_sub, fl_neg, fl_tenth_fixed]
  have hb : rarityThreshold ⟨"blue", "Blue", "#4dabf7", 15, 1.5, 0.40⟩
      = 1351079888211149 / 2 ^ 52 := by
    rw [rarityThreshold_eq _ (3602879701896397 / 2 ^ 53) (by
      show fl (0.40 : ℚ) = _
      have : (0.40 : ℚ) = 2 / 5 := by norm_num
      rw [this, fl_two_fifths])]
    exact fl_blue_diff
  have hred : rarityThreshold ⟨"red", "Red", "#ff6b6b", 25, 2.0, 0.65⟩
      = 2476979795053773 / 2 ^ 52 := by
    rw [rarityThreshold_eq _ (5854679515581645 / 2 ^ 53) (by
      show fl (0.65 : ℚ) = _
      have : (0.65 : ℚ) = 13 / 20 := by norm_num
      rw [this, fl_thirteen_twentieths])]
    exact fl_red_diff
  have hg : rarityThreshold ⟨"golden", "Golden", "#ffd43b", 50, 3.0, 0.85⟩ = 3 / 4 := by
    rw [rarityThreshold_eq _ (7656119366529843 / 2 ^ 53) (by
      show fl (0.85 : ℚ) = _
      have : (0.85 : ℚ) = 17 / 20 := by norm_num
      rw [this, fl_seventeen_twentieths])]
    exact fl_golden_diff
  simp only [FISH_TYPES, List.map_cons, List.map_nil, hw, hb, hred, hg]

theorem rarityThreshold_of_mem (ft : FishType) (h : ft ∈ FISH_TYPES) :
    (ft.key = "white" ∧ rarityThreshold ft = -(3602879701896397 / 2 ^ 55)) ∨
    (ft.key = "blue" ∧ rarityThreshold ft = 1351079888211149 / 2 ^ 52) ∨
    (ft.key = "red" ∧ rarityThreshold ft = 2476979795053773 / 2 ^ 52) ∨
    (ft.key = "golden" ∧ rarityThreshold ft = 3 / 4) := by
  have hv := rarityThreshold_values
  simp only [FISH_TYPES, List.map_cons, List.map_nil, List.cons.injEq, and_true] at hv
  obtain ⟨h1, h2, h3, h4⟩ := hv
  rcases mem_FISH_TYPES ft h with rfl | rfl | rfl | rfl
  · exact Or.inl ⟨rfl, h1⟩
  · exact Or.inr (Or.inl ⟨rfl, h2⟩)
  · exact Or.inr (Or.inr (Or.inl ⟨rfl, h3⟩))
  · exact Or.inr (Or.inr (Or.inr ⟨rfl, h4⟩))

/-- The depth of the fish of iteration `i` in terms of its first draw. -/
theorem createFish_y (s : State) (rnd : Nat → ℚ) (i : Nat) :
    (createFish s rnd i).y = fl (fl (rnd (4 * i) * 1960) + 120) := by
  have h1 : fl (WATER_TOP_Y + 40) = 120 := by
    have : WATER_TOP_Y + 40 = 120 := by norm_num [WATER_TOP_Y]
    rw [this, fl_120]
  have h2 : fl (WATER_TOP_Y + s.maxDepth) = 2080 := by
    have : WATER_TOP_Y + s.maxDepth = 2080 := by
      norm_num [WATER_TOP_Y, State.maxDepth, START_DEPTH]
    rw [this, fl_2080]
  have h3 : fl ((2080 : ℚ) - 120) = 1960 := by
    have : (2080 : ℚ) - 120 = 1960 := by norm_num
    rw [this, fl_1960]
  show randRange (rnd (4 * i)) (fl (WATER_TOP_Y + 40)) (fl (WATER_TOP_Y + s.maxDepth)) = _
  unfold randRange
  rw [h1, h2, h3]

theorem createFish_x (s : State) (rnd : Nat → ℚ) (i : Nat) :
    (createFish s rnd i).x = randRange (rnd (4 * i + 2)) 40 (fl (s.CANVAS_WIDTH - 40)) := rfl

theorem createFish_type (s : State) (rnd : Nat → ℚ) (i : Nat) :
    (createFish s rnd i).type =
      (if 0 ≤ candidateIndex (rnd (4 * i + 1))
            (candidatesAt (depthRatio s (createFish s rnd i).y)) then
        (candidatesAt (depthRatio s (createFish s rnd i).y))[
          (candidateIndex (rnd (4 * i + 1))
            (candidatesAt (depthRatio s (createFish s rnd i).y))).toNat]?
      else none).getD (FISH_TYPES.get ⟨0, by decide⟩) := rfl

theorem createFish_vx (s : State) (rnd : Nat → ℚ) (i : Nat) :
    (createFish s rnd i).vx =
      fl ((if rnd (4 * i + 3) < 0.5 then -1 else 1) *
        fl (fl FISH_SPEED_UNIT * fl (createFish s rnd i).type.speedMultiplier)) := rfl

theorem depth_bounds (r : ℚ) (h0 : 0 ≤ r) (h1 : r < 1) :
    120 ≤ fl (fl (r * 1960) + 120) ∧ fl (fl (r * 1960) + 120) ≤ 2080 := by
  have ha : 0 ≤ fl (r * 1960) := by
    have := fl_mono (le_refl (0 : ℚ)) (mul_nonneg h0 (by norm_num : (0 : ℚ) ≤ 1960))
    rwa [fl_zero] at this
  have hb : fl (r * 1960) ≤ 1960 := by
    have := fl_mono (mul_nonneg h0 (by norm_num : (0 : ℚ) ≤ 1960))
      (by nlinarith : r * 1960 ≤ 1960)
    rwa [fl_1960] at this
  constructor
  · have := fl_mono (by norm_num : (0 : ℚ) ≤ 120) (by linarith : (120 : ℚ) ≤ fl (r * 1960) + 120)
    rwa [fl_120] at this
  · have := fl_mono (by linarith : (0 : ℚ) ≤ fl (r * 1960) + 120)
      (by linarith : fl (r * 1960) + 120 ≤ 2080)
    rwa [fl_2080] at this

theorem depthRatio_nonneg (s : State) (y : ℚ) (hy : 120 ≤ y) : 0 ≤ depthRatio s y := by
  unfold depthRatio
  have h1 : 40 ≤ fl (y - WATER_TOP_Y) := by
    have := fl_mono (by norm_num : (0 : ℚ) ≤ 40)
      (by norm_num [WATER_TOP_Y]; linarith : (40 : ℚ) ≤ y - WATER_TOP_Y)
    rwa [fl_40] at this
  have h2 : 0 ≤ fl (y - WATER_TOP_Y) / s.maxDepth :=
    div_nonneg (by linarith) (by norm_num [State.maxDepth, START_DEPTH])
  have := fl_mono (le_refl (0 : ℚ)) h2
  rwa [fl_zero] at this

theorem mem_candidatesAt (t : ℚ) (ft : FishType) :
    ft ∈ candidatesAt t ↔ ft ∈ FISH_TYPES ∧ rarityThreshold ft ≤ t := by
  unfold candidatesAt
  rw [List.mem_filter]
  simp

theorem white_mem_candidatesAt (t : ℚ) (ht : 0 ≤ t) :
    FISH_TYPES.get ⟨0, by decide⟩ ∈ candidatesAt t := by
  rw [mem_candidatesAt]
  have hmem : FISH_TYPES.get ⟨0, by decide⟩ ∈ FISH_TYPES := List.get_mem _ _ _
  refine ⟨hmem, ?_⟩
  rcases rarityThreshold_of_mem _ hmem with ⟨_, h⟩ | ⟨hk, _⟩ | ⟨hk, _⟩ | ⟨hk, _⟩
  · rw [h]
    have : (0 : ℚ) ≤ 3602879701896397 / 2 ^ 55 := by positivity
    linarith
  · exact absurd hk (by decide)
  · exact absurd hk (by decide)
  · exact absurd hk (by decide)

theorem candidatesAt_length_le (t : ℚ) : (candidatesAt t).length ≤ 4 := by
  unfold candidatesAt
  exact List.length_filter_le _ _

/-- For a binary64 draw in `[0, 1)` and at most 4 candidates, the index
`Math.floor(r * candidates.length)` lies within the list. -/
theorem candidateIndex_range (r : ℚ) (c : List FishType) (hd : IsDouble r) (h0 : 0 ≤ r)
    (h1 : r < 1) (hc : c ≠ []) (h4 : c.length ≤ 4) :
    0 ≤ candidateIndex r c ∧ (candidateIndex r c).toNat < c.length := by
  have hlen : 0 < c.length := List.length_pos.2 hc
  have hr := double_lt_one r hd h0 h1
  unfold candidateIndex
  have hnn : 0 ≤ fl (r * (c.length : ℚ)) := by
    have := fl_mono (le_refl (0 : ℚ)) (mul_nonneg h0 (Nat.cast_nonneg c.length))
    rwa [fl_zero] at this
  have hfloor : 0 ≤ ⌊fl (r * (c.length : ℚ))⌋ := Int.floor_nonneg.2 hnn
  refine ⟨hfloor, ?_⟩
  have hlt : fl (r * (c.length : ℚ)) < (c.length : ℚ) := by
    have hcases : c.length = 1 ∨ c.length = 2 ∨ c.length = 3 ∨ c.length = 4 := by omega
    rcases hcases with h | h | h | h <;> rw [h]
    · have := fl_mono (mul_nonneg h0 (by norm_num : (0 : ℚ) ≤ ((1 : ℕ) : ℚ)))
        (by push_cast; linarith : r * ((1 : ℕ) : ℚ) ≤ 1 - 1 / 2 ^ 53)
      rw [fl_below_one] at this
      push_cast at this ⊢
      have h2 : (1 : ℚ) - 1 / 2 ^ 53 < 1 := by norm_num
      linarith
    · have := fl_mono (mul_nonneg h0 (by norm_num : (0 : ℚ) ≤ ((2 : ℕ) : ℚ)))
        (by push_cast; linarith : r * ((2 : ℕ) : ℚ) ≤ 2 - 1 / 2 ^ 52)
      rw [fl_below_two] at this
      push_cast at this ⊢
      have h2 : (2 : ℚ) - 1 / 2 ^ 52 < 2 := by norm_num
      linarith
    · have := fl_mono (mul_nonneg h0 (by norm_num : (0 : ℚ) ≤ ((3 : ℕ) : ℚ)))
        (by push_cast; linarith : r * ((3 : ℕ) : ℚ) ≤ 3 - 3 / 2 ^ 53)
      rw [fl_below_three] at this
      push_cast at this ⊢
      have h2 : (3 : ℚ) - 1 / 2 ^ 51 < 3 := by norm_num
      linarith
    · have := fl_mono (mul_nonneg h0 (by norm_num : (0 : ℚ) ≤ ((4 : ℕ) : ℚ)))
        (by push_cast; linarith : r * ((4 : ℕ) : ℚ) ≤ 4 - 1 / 2 ^ 51)
      rw [fl_below_four] at this
      push_cast at this ⊢
      have h2 : (4 : ℚ) - 1 / 2 ^ 51 < 4 := by norm_num
      linarith
  have hlt2 : ⌊fl (r * (c.length : ℚ))⌋ < (c.length : Int) := by
    rw [Int.floor_lt]
    exact_mod_cast hlt
  omega

theorem createFish_depth (s : State) (rnd : Nat → ℚ) (i : Nat) (hr : UnitDraws rnd) :
    WATER_TOP_Y + 40 ≤ (createFish s rnd i).y ∧
      (createFish s rnd i).y ≤ WATER_TOP_Y + s.maxDepth ∧
      0 ≤ depthRatio s (createFish s rnd i).y := by
  have h := depth_bounds (rnd (4 * i)) (hr _).2.1 (hr _).2.2
  rw [createFish_y]
  refine ⟨?_, ?_, depthRatio_nonneg s _ h.1⟩
  · have : WATER_TOP_Y + 40 = 120 := by norm_num [WATER_TOP_Y]
    rw [this]; exact h.1
  · have : WATER_TOP_Y + s.maxDepth = 2080 := by
      norm_num [WATER_TOP_Y, State.maxDepth, START_DEPTH]
    rw [this]; exact h.2

/-- The type of a created fish is the candidate at the drawn index; the
fall-back value is not used. -/
theorem createFish_type_candidate (s : State) (rnd : Nat → ℚ) (i : Nat) (hr : UnitDraws rnd) :
    candidatesAt (depthRatio s (createFish s rnd i).y) ≠ [] ∧
    0 ≤ candidateIndex (rnd (4 * i + 1)) (candidatesAt (depthRatio s (createFish s rnd i).y)) ∧
    (candidatesAt (depthRatio s (createFish s rnd i).y))[
      (candidateIndex (rnd (4 * i + 1))
        (candidatesAt (depthRatio s (createFish s rnd i).y))).toNat]?
      = some (createFish s rnd i).type := by
  have hne : candidatesAt (depthRatio s (createFish s rnd i).y) ≠ [] :=
    List.ne_nil_of_mem (white_mem_candidatesAt _ (createFish_depth s rnd i hr).2.2)
  have hidx := candidateIndex_range (rnd (4 * i + 1)) _ (hr _).1 (hr _).2.1 (hr _).2.2 hne
    (candidatesAt_length_le _)
  refine ⟨hne, hidx.1, ?_⟩
  rw [createFish_type s rnd i, if_pos hidx.1, List.getElem?_eq_getElem hidx.2]
  rfl

theorem createFish_type_mem (s : State) (rnd : Nat → ℚ) (i : Nat) (hr : UnitDraws rnd) :
    (createFish s rnd i).type ∈ candidatesAt (depthRatio s (createFish s rnd i).y) :=
  List.getElem?_mem (createFish_type_candidate s rnd i hr).2.2

/-- The speed `FISH_SPEED_UNIT * speedMultiplier` of a tier is exact in
binary64, and so is its negation. -/
theorem speed_exact (ft : FishType) (h : ft ∈ FISH_TYPES) :
    fl (fl FISH_SPEED_UNIT * fl ft.speedMultiplier) = 0.5 * ft.speedMultiplier ∧
    fl (0.5 * ft.speedMultiplier) = 0.5 * ft.speedMultiplier ∧
    0 ≤ ft.speedMultiplier := by
  have hu : fl FISH_SPEED_UNIT = 1 / 2 := by
    have : FISH_SPEED_UNIT = 1 / 2 := by norm_num [FISH_SPEED_UNIT]
    rw [this, fl_half]
  have e1 : (1.0 : ℚ) = 1 := by norm_num
  have e2 : (1.5 : ℚ) = 3 / 2 := by norm_num
  have e3 : (2.0 : ℚ) = 2 := by norm_num
  have e4 : (3.0 : ℚ) = 3 := by norm_num
  have e5 : (0.5 : ℚ) = 1 / 2 := by norm_num
  have p1 : (1 : ℚ) / 2 * 1 = 1 / 2 := by norm_num
  have p2 : (1 : ℚ) / 2 * (3 / 2) = 3 / 4 := by norm_num
  have p3 : (1 : ℚ) / 2 * 2 = 1 := by norm_num
  have p4 : (1 : ℚ) / 2 * 3 = 3 / 2 := by norm_num
  rw [hu, e5]
  rcases mem_FISH_TYPES ft h with rfl | rfl | rfl | rfl
  · show fl (1 / 2 * fl 1.0) = 1 / 2 * 1.0 ∧ fl (1 / 2 * 1.0) = 1 / 2 * 1.0 ∧ (0 : ℚ) ≤ 1.0
    rw [e1, fl_one, p1, fl_half]
    exact ⟨rfl, rfl, by norm_num⟩
  · show fl (1 / 2 * fl 1.5) = 1 / 2 * 1.5 ∧ fl (1 / 2 * 1.5) = 1 / 2 * 1.5 ∧ (0 : ℚ) ≤ 1.5
    rw [e2, fl_three_halves, p2, fl_three_quarters]
    exact ⟨rfl, rfl, by norm_num⟩
  · show fl (1 / 2 * fl 2.0) = 1 / 2 * 2.0 ∧ fl (1 / 2 * 2.0) = 1 / 2 * 2.0 ∧ (0 : ℚ) ≤ 2.0
    rw [e3, fl_two, p3, fl_one]
    exact ⟨rfl, rfl, by norm_num⟩
  · show fl (1 / 2 * fl 3.0) = 1 / 2 * 3.0 ∧ fl (1 / 2 * 3.0) = 1 / 2 * 3.0 ∧ (0 : ℚ) ≤ 3.0
    rw [e4, fl_three, p4, fl_three_halves]
    exact ⟨rfl, rfl, by norm_num⟩

theorem createFish_speed (s : State) (rnd : Nat → ℚ) (i : Nat)
    (h : (createFish s rnd i).type ∈ FISH_TYPES) :
    (createFish s rnd i).vx =
      (if rnd (4 * i + 3) < 0.5 then -1 else 1) * (0.5 * (createFish s rnd i).type.speedMultiplier) ∧
    |(createFish s rnd i).vx| = 0.5 * (createFish s rnd i).type.speedMultiplier := by
  obtain ⟨h1, h2, h3⟩ := speed_exact _ h
  have hnn : (0 : ℚ) ≤ 0.5 * (createFish s rnd i).type.speedMultiplier :=
    mul_nonneg (by norm_num) h3
  rw [createFish_vx, h1]
  by_cases hd : rnd (4 * i + 3) < 0.5
  · simp only [hd, if_true]
    rw [neg_one_mul, fl_neg, h2, abs_neg, abs_of_nonneg hnn]
    exact ⟨rfl, rfl⟩
  · simp only [hd, if_false]
    rw [one_mul, h2, abs_of_nonneg hnn]
    exact ⟨rfl, rfl⟩

/-- For every index of a list of at most 4 candidates there is a binary64
draw in `[0, 1)` that selects it. -/
theorem exists_draw (len j : Nat) (hl : len ≤ 4) (hj : j < len) :
    ∃ r : ℚ, IsDouble r ∧ 0 ≤ r ∧ r < 1 ∧ ⌊fl (r * (len : ℚ))⌋ = (j : Int) := by
  have hz : ∀ n : ℚ, ⌊fl (0 * n)⌋ = ((0 : ℕ) : Int) := by
    intro n
    rw [zero_mul, fl_zero]
    simp
  have c1 : ⌊(1 : ℚ)⌋ = ((1 : ℕ) : Int) := by simp
  have c2 : ⌊(2 : ℚ)⌋ = ((2 : ℕ) : Int) := by
    rw [Int.floor_eq_iff]; constructor <;> norm_num
  have c3 : ⌊(3 : ℚ)⌋ = ((3 : ℕ) : Int) := by
    rw [Int.floor_eq_iff]; constructor <;> norm_num
  have c98 : ⌊(9 / 8 : ℚ)⌋ = ((1 : ℕ) : Int) := by
    rw [Int.floor_eq_iff]; constructor <;> norm_num
  have c94 : ⌊(9 / 4 : ℚ)⌋ = ((2 : ℕ) : Int) := by
    rw [Int.floor_eq_iff]; constructor <;> norm_num
  have hcases : (len = 1 ∨ len = 2 ∨ len = 3 ∨ len = 4) := by omega
  rcases hcases with rfl | rfl | rfl | rfl
  · have : j = 0 := by omega
    subst this
    exact ⟨0, fl_zero, le_refl _, by norm_num, hz _⟩
  · have : j = 0 ∨ j = 1 := by omega
    rcases this with rfl | rfl
    · exact ⟨0, fl_zero, le_refl _, by norm_num, hz _⟩
    · refine ⟨1 / 2, fl_half, by norm_num, by norm_num, ?_⟩
      have : (1 / 2 : ℚ) * ((2 : ℕ) : ℚ) = 1 := by norm_num
      rw [this, fl_one, c1]
  · have : j = 0 ∨ j = 1 ∨ j = 2 := by omega
    rcases this with rfl | rfl | rfl
    · exact ⟨0, fl_zero, le_refl _, by norm_num, hz _⟩
    · refine ⟨3 / 8, fl_three_eighths, by norm_num, by norm_num, ?_⟩
      have : (3 / 8 : ℚ) * ((3 : ℕ) : ℚ) = 9 / 8 := by norm_num
      rw [this, fl_nine_eighths, c98]
    · refine ⟨3 / 4, fl_three_quarters, by norm_num, by norm_num, ?_⟩
      have : (3 / 4 : ℚ) * ((3 : ℕ) : ℚ) = 9 / 4 := by norm_num
      rw [this, fl_nine_quarters, c94]
  · have : j = 0 ∨ j = 1 ∨ j = 2 ∨ j = 3 := by omega
    rcases this with rfl | rfl | rfl | rfl
    · exact ⟨0, fl_zero, le_refl _, by norm_num, hz _⟩
    · refine ⟨1 / 4, fl_quarter, by norm_num, by norm_num, ?_⟩
      have : (1 / 4 : ℚ) * ((4 : ℕ) : ℚ) = 1 := by norm_num
      rw [this, fl_one, c1]
    · refine ⟨1 / 2, fl_half, by norm_num, by norm_num, ?_⟩
      have : (1 / 2 : ℚ) * ((4 : ℕ) : ℚ) = 2 := by norm_num
      rw [this, fl_two, c2]
    · refine ⟨3 / 4, fl_three_quarters, by norm_num, by norm_num, ?_⟩
      have : (3 / 4 : ℚ) * ((4 : ℕ) : ℚ) = 3 := by norm_num
      rw [this, fl_three, c3]

/-- Any candidate can be drawn for the fish of iteration `i`, the other draws
and so the depth being kept. -/
theorem createFish_selectable (s : State) (rnd : Nat → ℚ) (i : Nat) (ft : FishType)
    (hft : ft ∈ candidatesAt (depthRatio s (createFish s rnd i).y)) :
    ∃ r, IsDouble r ∧ 0 ≤ r ∧ r < 1 ∧
      (createFish s (Function.update rnd (4 * i + 1) r) i).y = (createFish s rnd i).y ∧
      (createFish s (Function.update rnd (4 * i + 1) r) i).type = ft := by
  obtain ⟨j, hj, hjft⟩ := List.getElem_of_mem hft
  obtain ⟨r, hd, h0, h1, hfloor⟩ := exists_draw _ j (candidatesAt_length_le _) hj
  have hy : (createFish s (Function.update rnd (4 * i + 1) r) i).y
      = (createFish s rnd i).y := by
    rw [createFish_y, createFish_y, Function.update_noteq (by omega)]
  refine ⟨r, hd, h0, h1, hy, ?_⟩
  have hidx : candidateIndex r (candidatesAt (depthRatio s (createFish s rnd i).y))
      = (j : Int) := hfloor
  rw [createFish_type, hy, Function.update_same, hidx]
  simp only [Int.natCast_nonneg, if_true, Int.toNat_ofNat]
  rw [List.getElem?_eq_getElem hj, hjft]
  rfl

/-- C11, as amended: with binary64 draws in `[0, 1)` and the arithmetic of
`createFishField` in binary64, it creates exactly 36 fish, the fish of
iteration `i` at index `i`, none caught. The depth of fish `i` is
`fl (fl (rnd (4 i) * 1960) + 120)` and lies in the closed interval
`[WATER_TOP_Y + 40, WATER_TOP_Y + maxDepth]`. Its candidate list is never
empty and the drawn index lies within it, so its type is the candidate at
that index and the fall-back is not taken; the type is one of the 4 tiers and
its threshold `rarityDepth - 0.1`, as computed in binary64, is at most
`t = (y - WATER_TOP_Y) / maxDepth`, as computed in binary64, so golden needs
`t ≥ 0.75` and red `t ≥ 0.55`. Its velocity is `0.5 * speedMultiplier` with
the sign of the fourth draw, so `|vx| = 0.5 * speedMultiplier`, and its `x`
is `randRange(40, CANVAS_WIDTH - 40)` of the third draw. Every tier
whose binary64 threshold is at most `t` is chosen by some binary64 draw in
`[0, 1)`. The four thresholds are `-0.1`, `0.30000000000000004`, `0.55` and
`0.75` as doubles. -/
theorem createFishField_spec (s : State) (rnd : Nat → ℚ) (hr : UnitDraws rnd) :
    (createFishField s rnd).fish.length = 36 ∧
    (∀ i, i < 36 → (createFishField s rnd).fish[i]? = some (createFish s rnd i)) ∧
    (∀ i,
      (createFish s rnd i).caught = false ∧
      (createFish s rnd i).y = fl (fl (rnd (4 * i) * 1960) + 120) ∧
      WATER_TOP_Y + 40 ≤ (createFish s rnd i).y ∧
      (createFish s rnd i).y ≤ WATER_TOP_Y + s.maxDepth ∧
      candidatesAt (depthRatio s (createFish s rnd i).y) ≠ [] ∧
      0 ≤ candidateIndex (rnd (4 * i + 1))
        (candidatesAt (depthRatio s (createFish s rnd i).y)) ∧
      (candidatesAt (depthRatio s (createFish s rnd i).y))[
        (candidateIndex (rnd (4 * i + 1))
          (candidatesAt (depthRatio s (createFish s rnd i).y))).toNat]?
        = some (createFish s rnd i).type ∧
      (createFish s rnd i).type ∈ FISH_TYPES ∧
      rarityThreshold (createFish s rnd i).type ≤ depthRatio s (createFish s rnd i).y ∧
      ((createFish s rnd i).type.key = "golden" →
        0.75 ≤ depthRatio s (createFish s rnd i).y) ∧
      ((createFish s rnd i).type.key = "red" →
        0.55 ≤ depthRatio s (createFish s rnd i).y) ∧
      (createFish s rnd i).vx =
        (if rnd (4 * i + 3) < 0.5 then -1 else 1) *
          (0.5 * (createFish s rnd i).type.speedMultiplier) ∧
      |(createFish s rnd i).vx| = 0.5 * (createFish s rnd i).type.speedMultiplier ∧
      (createFish s rnd i).x =
        fl (fl (rnd (4 * i + 2) * fl (fl (s.CANVAS_WIDTH - 40) - 40)) + 40)) ∧
    (∀ i, ∀ ft ∈ FISH_TYPES, rarityThreshold ft ≤ depthRatio s (createFish s rnd i).y →
      ∃ r, IsDouble r ∧ 0 ≤ r ∧ r < 1 ∧
        (createFish s (Function.update rnd (4 * i + 1) r) i).y = (createFish s rnd i).y ∧
        (createFish s (Function.update rnd (4 * i + 1) r) i).type = ft) ∧
    (∀ y, depthRatio s y = fl (fl (y - 80) / 2000)) ∧
    FISH_TYPES.map rarityThreshold =
      [-(3602879701896397 / 2 ^ 55), 1351079888211149 / 2 ^ 52,
        2476979795053773 / 2 ^ 52, 3 / 4] := by
  have hfish : (createFishField s rnd).fish = (List.range 36).map (createFish s rnd) := rfl
  refine ⟨?_, ?_, ?_, ?_, ?_, rarityThreshold_values⟩
  · rw [hfish, List.length_map, List.length_range]
  · intro i hi
    rw [hfish, List.getElem?_map, List.getElem?_range hi]
    rfl
  · intro i
    have hd := createFish_depth s rnd i hr
    have hc := createFish_type_candidate s rnd i hr
    have hm := (mem_candidatesAt _ _).1 (createFish_type_mem s rnd i hr)
    have hsp := createFish_speed s rnd i hm.1
    refine ⟨rfl, createFish_y s rnd i, hd.1, hd.2.1, hc.1, hc.2.1, hc.2.2, hm.1, hm.2,
      ?_, ?_, hsp.1, hsp.2, rfl⟩
    · intro hk
      rcases rarityThreshold_of_mem _ hm.1 with ⟨h1, _⟩ | ⟨h1, _⟩ | ⟨h1, _⟩ | ⟨_, h2⟩
      · rw [hk] at h1; exact absurd h1 (by decide)
      · rw [hk] at h1; exact absurd h1 (by decide)
      · rw [hk] at h1; exact absurd h1 (by decide)
      · have := hm.2
        rw [h2] at this
        have e : (0.75 : ℚ) = 3 / 4 := by norm_num
        rw [e]; exact this
    · intro hk
      rcases rarityThreshold_of_mem _ hm.1 with ⟨h1, _⟩ | ⟨h1, _⟩ | ⟨_, h2⟩ | ⟨h1, _⟩
      · rw [hk] at h1; exact absurd h1 (by decide)
      · rw [hk] at h1; exact absurd h1 (by decide)
      · have := hm.2
        rw [h2] at this
        have e : (0.55 : ℚ) ≤ 2476979795053773 / 2 ^ 52 := by norm_num
        exact le_trans e this
      · rw [hk] at h1; exact absurd h1 (by decide)
  · intro i ft hft hthr
    exact createFish_selectable s rnd i ft ((mem_candidatesAt _ _).2 ⟨hft, hthr⟩)
  · intro y
    unfold depthRatio
    have h1 : WATER_TOP_Y = 80 := rfl
    have h2 : s.maxDepth = 2000 := rfl
    rw [h1, h2]

/-- Witness of the amended C11: the constant draw `1/2` in the sample state. -/
theorem createFishField_spec_witness :
    UnitDraws (fun _ => 1 / 2) ∧
    (createFishField sampleState (fun _ => 1 / 2)).fish.length = 36 ∧
    (createFish sampleState (fun _ => 1 / 2) 0).y = fl (fl (1 / 2 * 1960) + 120) :=
  have hu : UnitDraws (fun _ => 1 / 2) := fun _ => ⟨fl_half, by norm_num, by norm_num⟩
  ⟨hu, (createFishField_spec sampleState (fun _ => 1 / 2) hu).1,
    ((createFishField_spec sampleState (fun _ => 1 / 2) hu).2.2.1 0).2.1⟩

/-! ## Game simulation: the boundary cases of the round initialisation -/

theorem fl_top_product : fl ((1 - 1 / 2 ^ 53) * 1960) = 1960 - 1 / 2 ^ 42 := by
  rw [fl_eq _ 10 (1960 * 2 ^ 42 - 1) (by rw [abs_of_pos (by norm_num)]; norm_num)
    (by rw [abs_of_pos (by norm_num)]; norm_num) (by norm_num)
    (roundEven_eq_of_abs_lt _ _ (by rw [abs_lt]; constructor <;> norm_num))]
  norm_num

theorem fl_top_sum : fl (1960 - 1 / 2 ^ 42 + 120) = 2080 := by
  rw [fl_eq _ 11 (2080 * 2 ^ 41) (by rw [abs_of_pos (by norm_num)]; norm_num)
    (by rw [abs_of_pos (by norm_num)]; norm_num) (by norm_num)
    (roundEven_tie_up _ _ (by norm_num) (by norm_num))]
  norm_num

theorem fl_two_sevenths_fixed :
    fl (2573485501354569 / 2 ^ 53) = 2573485501354569 / 2 ^ 53 :=
  fl_eq_self _ (-2) 5146971002709138 (by rw [abs_of_pos (by norm_num)]; norm_num)
    (by rw [abs_of_pos (by norm_num)]; norm_num) (by norm_num) (by norm_num)

theorem fl_560_product : fl (2573485501354569 / 2 ^ 53 * 1960) = 560 := by
  rw [fl_eq _ 9 (560 * 2 ^ 43) (by rw [abs_of_pos (by norm_num)]; norm_num)
    (by rw [abs_of_pos (by norm_num)]; norm_num) (by norm_num)
    (roundEven_eq_of_abs_lt _ _ (by rw [abs_lt]; constructor <;> norm_num))]
  norm_num

theorem fl_680 : fl 680 = 680 :=
  fl_eq_self 680 9 (680 * 2 ^ 43) (by rw [abs_of_pos (by norm_num)]; norm_num)
    (by rw [abs_of_pos (by norm_num)]; norm_num) (by norm_num) (by norm_num)

theorem fl_600 : fl 600 = 600 :=
  fl_eq_self 600 9 (600 * 2 ^ 43) (by rw [abs_of_pos (by norm_num)]; norm_num)
    (by rw [abs_of_pos (by norm_num)]; norm_num) (by norm_num) (by norm_num)

theorem fl_three_tenths : fl (3 / 10) = 5404319552844595 / 2 ^ 54 := by
  rw [fl_eq _ (-2) 5404319552844595 (by rw [abs_of_pos (by norm_num)]; norm_num)
    (by rw [abs_of_pos (by norm_num)]; norm_num) (by norm_num)
    (roundEven_eq_of_abs_lt _ _ (by rw [abs_lt]; constructor <;> norm_num))]
  norm_num

theorem depthRatio_680 (s : State) : depthRatio s 680 = 5404319552844595 / 2 ^ 54 := by
  unfold depthRatio
  have h1 : (680 : ℚ) - WATER_TOP_Y = 600 := by norm_num [WATER_TOP_Y]
  have h2 : (600 : ℚ) / s.maxDepth = 3 / 10 := by norm_num [State.maxDepth, START_DEPTH]
  rw [h1, fl_600, h2, fl_three_tenths]

/-- At depth 680 the only candidate is the white tier. -/
theorem candidatesAt_680 (s : State) :
    candidatesAt (depthRatio s 680) = [⟨"white", "White", "#ffffff", 5, 1.0, 0.00⟩] := by
  have hv := rarityThreshold_values
  simp only [FISH_TYPES, List.map_cons, List.map_nil, List.cons.injEq, and_true] at hv
  obtain ⟨h1, h2, h3, h4⟩ := hv
  rw [depthRatio_680]
  unfold candidatesAt
  simp only [FISH_TYPES, List.filter_cons, List.filter_nil, h1, h2, h3, h4]
  norm_num

theorem getD_of_singleton (w : FishType) (o : Option FishType)
    (h : ∀ x, o = some x → x = w) : o.getD w = w := by
  cases o with
  | none => rfl
  | some x => exact h x rfl

/-- Counterexample to C11 as stated. With the draw `1 - 2 ^ (-53)`, a binary64
number in `[0, 1)`, the depth is exactly `WATER_TOP_Y + maxDepth`, not below
it. With the draw `2573485501354569 / 2 ^ 53` the depth is 680, where
`rarityDepth - 0.1 ≤ (y - WATER_TOP_Y) / maxDepth` holds of the blue tier in
exact arithmetic (`0.3 ≤ 0.3`), yet every draw for the type gives white: the
code compares `0.4 - 0.1 = 0.30000000000000004` with `t = 0.3`, both rounded. -/
theorem createFishField_counterexample :
    UnitDraws (fun _ => 1 - 1 / 2 ^ 53) ∧
    (createFish sampleState (fun _ => 1 - 1 / 2 ^ 53) 0).y
      = WATER_TOP_Y + sampleState.maxDepth ∧
    UnitDraws (fun _ => 2573485501354569 / 2 ^ 53) ∧
    (createFish sampleState (fun _ => 2573485501354569 / 2 ^ 53) 0).y = 680 ∧
    (⟨"blue", "Blue", "#4dabf7", 15, 1.5, 0.40⟩ : FishType) ∈ FISH_TYPES ∧
    (0.40 : ℚ) - 0.1 ≤ (680 - WATER_TOP_Y) / sampleState.maxDepth ∧
    (∀ r : ℚ,
      (createFish sampleState
        (Function.update (fun _ => 2573485501354569 / 2 ^ 53) 1 r) 0).type.key = "white") := by
  have hy1 : (createFish sampleState (fun _ => 1 - 1 / 2 ^ 53) 0).y = 2080 := by
    rw [createFish_y]
    show fl (fl ((1 - 1 / 2 ^ 53) * 1960) + 120) = 2080
    rw [fl_top_product, fl_top_sum]
  have hy2 : ∀ rnd : Nat → ℚ, rnd 0 = 2573485501354569 / 2 ^ 53 →
      (createFish sampleState rnd 0).y = 680 := by
    intro rnd h0
    rw [createFish_y]
    show fl (fl (rnd 0 * 1960) + 120) = 680
    rw [h0, fl_560_product]
    have : (560 : ℚ) + 120 = 680 := by norm_num
    rw [this, fl_680]
  refine ⟨fun _ => ⟨fl_below_one, by norm_num, by norm_num⟩, ?_,
    fun _ => ⟨fl_two_sevenths_fixed, by norm_num, by norm_num⟩, hy2 _ rfl, ?_, ?_, ?_⟩
  · rw [hy1]
    norm_num [WATER_TOP_Y, State.maxDepth, START_DEPTH]
  · simp [FISH_TYPES]
  · norm_num [WATER_TOP_Y, State.maxDepth, START_DEPTH]
  · intro r
    have hy := hy2 (Function.update (fun _ => 2573485501354569 / 2 ^ 53) 1 r)
      (Function.update_noteq (by decide) _ _)
    rw [createFish_type, hy, candidatesAt_680]
    have hw : FISH_TYPES.get ⟨0, by decide⟩
        = (⟨"white", "White", "#ffffff", 5, 1.0, 0.00⟩ : FishType) := rfl
    rw [hw]
    have hg : ∀ o : Option FishType,
        (∀ x, o = some x → x = (⟨"white", "White", "#ffffff", 5, 1.0, 0.00⟩ : FishType)) →
        (o.getD ⟨"white", "White", "#ffffff", 5, 1.0, 0.00⟩).key = "white" := by
      intro o ho
      rw [getD_of_singleton _ o ho]
    apply hg
    intro x hx
    split_ifs at hx
    · have := List.getElem?_mem hx
      simpa using this

end Fishinganoma
